import Mathlib

/-
Verification development for the NoProto core (schema parsing and the map
collection engine).

The Rust source that is embedded here consists of three files:
`src/schema.rs` (type keys, parsed-schema enum, schema parsers and
dispatchers), `src/collection/map.rs` (the map engine: select, insert,
iteration, to_json, do_compact, schema conversion) and `src/pointer/mod.rs`
(cursor navigation: select, select_with_commit, get_here/set_here,
json_encode, compact dispatch).

The byte arena (`NP_Memory`), the pointer-cell accessors, the scalar codecs
and the list/tuple engines are not part of the provided source; where they
are needed they are modelled from the specification (spec sections 4.1, 4.2,
4.5, 4.6, 4.8): an append-only byte vector with 2-byte big-endian addresses,
map-item cells laid out as (value_addr:u16, next_addr:u16, key_addr:u16) and
key records as (len:u8, bytes...).  Rust strings are represented by their
UTF-8 byte lists; machine bytes are `Nat` read modulo 256.
-/

set_option autoImplicit false
set_option maxRecDepth 4000

namespace NoProto

/-- Outcome of a Rust computation: a returned value, a returned error, a
panic, out-of-fuel (a loop that did not finish within the modelled fuel) or
undefined behavior (e.g. `transmute` to an invalid enum discriminant). -/
inductive RResult (α : Type) where
  | ok (val : α)
  | err (e : Nat)
  | panics
  | outOfFuel
  | undefinedBehavior
  deriving DecidableEq, Repr

/-- Error codes standing in for the `NP_Error` message strings of the source
(the source carries human-readable strings; only their identity matters
here). -/
def errKeyTooLong : Nat := 1
def errOutOfMemory : Nat := 2
def errMapRequiresValue : Nat := 3
def errUnknownSchemaType : Nat := 4
def errMissingType : Nat := 5
def errTypecast : Nat := 6
def errPathListNotNumber : Nat := 7
def errPathTupleNotNumber : Nat := 8
def errTupleIndexOutOfRange : Nat := 9

/-- Transport a non-`ok` outcome to another value type (Rust's `?` / error
propagation). -/
def RResult.map {α β : Type} (f : α → β) : RResult α → RResult β
  | .ok a => .ok (f a)
  | .err e => .err e
  | .panics => .panics
  | .outOfFuel => .outOfFuel
  | .undefinedBehavior => .undefinedBehavior

/-- The 25 schema type keys of `NP_TypeKeys` (src/schema.rs lines 589-615),
with discriminants 0 through 24. -/
inductive NP_TypeKeys where
  | none | any | utf8String | bytes
  | int8 | int16 | int32 | int64
  | uint8 | uint16 | uint32 | uint64
  | float | double | decimal | boolean
  | geo | uuid | ulid | date | enum
  | table | map | list | tuple
  deriving DecidableEq, Repr

/-- Discriminant of each `NP_TypeKeys` variant, as declared in the source. -/
def NP_TypeKeys.toNat : NP_TypeKeys → Nat
  | .none => 0 | .any => 1 | .utf8String => 2 | .bytes => 3
  | .int8 => 4 | .int16 => 5 | .int32 => 6 | .int64 => 7
  | .uint8 => 8 | .uint16 => 9 | .uint32 => 10 | .uint64 => 11
  | .float => 12 | .double => 13 | .decimal => 14 | .boolean => 15
  | .geo => 16 | .uuid => 17 | .ulid => 18 | .date => 19 | .enum => 20
  | .table => 21 | .map => 22 | .list => 23 | .tuple => 24

/-- The variant whose declared discriminant is `n`, if any. -/
def NP_TypeKeys.ofNat? : Nat → Option NP_TypeKeys
  | 0 => some .none | 1 => some .any | 2 => some .utf8String | 3 => some .bytes
  | 4 => some .int8 | 5 => some .int16 | 6 => some .int32 | 7 => some .int64
  | 8 => some .uint8 | 9 => some .uint16 | 10 => some .uint32 | 11 => some .uint64
  | 12 => some .float | 13 => some .double | 14 => some .decimal | 15 => some .boolean
  | 16 => some .geo | 17 => some .uuid | 18 => some .ulid | 19 => some .date
  | 20 => some .enum | 21 => some .table | 22 => some .map | 23 => some .list
  | 24 => some .tuple
  | _ => Option.none

/-- `impl From<u8> for NP_TypeKeys` (src/schema.rs lines 617-622):
`if value > 25 { panic!() }` followed by an unchecked `transmute` of the
byte into the enum.  Transmuting a discriminant that belongs to a declared
variant yields that variant; transmuting any other discriminant is
undefined behavior. -/
def np_typeKeys_from_u8 (value : Nat) : RResult NP_TypeKeys :=
  if value > 25 then .panics
  else
    match NP_TypeKeys.ofNat? value with
    | some t => .ok t
    | Option.none => .undefinedBehavior

/-- The parsed schema tree (`NP_Parsed_Schema`), in the `Vec`-indexed form
used by src/collection/map.rs: collection variants refer to their children
by position in the schema vector.  Only the variants exercised by the
claims are included; each carries its `sortable` flag and (for scalars) its
optional default, as in the source enum. -/
inductive NP_Parsed_Schema where
  | none
  | any (sortable : Bool)
  | uint8 (sortable : Bool) (defaultVal : Option Nat)
  | int32 (sortable : Bool) (defaultVal : Option Int)
  | map (sortable : Bool) (value : Nat)
  | list (sortable : Bool) (of : Nat)
  | tuple (sortable : Bool) (values : List Nat)
  deriving DecidableEq, Repr

/-- Modelled from the spec (section 4.1): the byte memory arena is a single
growable byte vector; the parsed schema vector rides along as in
`NP_Memory`.  Entries are `Nat`s; reads reduce modulo 256 (machine bytes). -/
structure NP_Memory where
  bytes : List Nat
  schema : List NP_Parsed_Schema
  deriving DecidableEq, Repr

/-- Read one byte at offset `i` (0 beyond the end, as the source only reads
in-bounds under its invariants). -/
def read_byte (m : NP_Memory) (i : Nat) : Nat :=
  m.bytes.getD i 0 % 256

/-- Modelled from the spec (section 3): 2-byte big-endian address read. -/
def read_u16 (m : NP_Memory) (i : Nat) : Nat :=
  read_byte m i * 256 + read_byte m (i + 1)

/-- Write one byte (no-op beyond the end, matching in-bounds use). -/
def write_byte (m : NP_Memory) (i v : Nat) : NP_Memory :=
  { m with bytes := m.bytes.set i (v % 256) }

/-- Modelled from the spec (section 3): 2-byte big-endian address write;
the value is truncated to 16 bits as by the source's `as u16` casts. -/
def write_u16 (m : NP_Memory) (i v : Nat) : NP_Memory :=
  write_byte (write_byte m i (v / 256 % 256)) (i + 1) (v % 256)

/-- Read `n` consecutive bytes starting at `i`. -/
def read_slice (m : NP_Memory) (i n : Nat) : List Nat :=
  (List.range n).map (fun k => read_byte m (i + k))

/-- Modelled from the spec (section 4.1): `alloc` extends the buffer and
returns the start offset; it fails only on overflow of the (2-byte) address
width. -/
def malloc_borrow (m : NP_Memory) (data : List Nat) :
    RResult Nat × NP_Memory :=
  if m.bytes.length + data.length > 65535 then (.err errOutOfMemory, m)
  else (.ok m.bytes.length, { m with bytes := m.bytes ++ data })

/-- Schema-vector lookup (`memory.schema[addr]`); out-of-range is mapped to
the `None` variant, which every dispatch site in the source treats as a
panic. -/
def schema_at (m : NP_Memory) (i : Nat) : NP_Parsed_Schema :=
  m.schema.getD i .none

/-- The cursor of src/collection/map.rs (`NP_Cursor::new(buff_addr,
schema_addr, parent_schema_addr)`).  `item_index` carries the per-kind list
index metadata of the fuller cursor record in src/pointer/mod.rs; the map
engine leaves it unset. -/
structure NP_Cursor where
  buff_addr : Nat
  schema_addr : Nat
  parent_schema_addr : Nat
  parent_addr : Option Nat
  item_index : Option Nat
  deriving DecidableEq, Repr

/-- `NP_Cursor::new` — the map engine constructor, which sets no item
metadata. -/
def NP_Cursor.new (buff_addr schema_addr parent_schema_addr : Nat) : NP_Cursor :=
  ⟨buff_addr, schema_addr, parent_schema_addr, Option.none, Option.none⟩

/-- Modelled from the spec (sections 3 and 4.2): a map-item cell stores
`(value_addr:u16, next_addr:u16, key_addr:u16)` at offsets 0, 2 and 4; the
key record at `key_addr` is `(len:u8, bytes...)`.  `get_key` reads the key
bytes of the cell at `cell`. -/
def get_key (m : NP_Memory) (cell : Nat) : List Nat :=
  let ka := read_u16 m (cell + 4)
  read_slice m (ka + 1) (read_byte m ka)

/-- Key length byte of the cell's key record (`get_key_size`). -/
def get_key_size (m : NP_Memory) (cell : Nat) : Nat :=
  read_byte m (read_u16 m (cell + 4))

/-- `Map_Item` (src/collection/map.rs lines 16-19). -/
structure Map_Item where
  key : List Nat
  buff_addr : Nat
  deriving DecidableEq, Repr

/-- The iterator state of `NP_Map` (src/collection/map.rs lines 24-31). -/
structure NP_Map_State where
  current : Option Map_Item
  previous : Option Map_Item
  head : Option Map_Item
  map : NP_Cursor
  value_of : Nat
  deriving DecidableEq, Repr

/-- `NP_Map::new_iter` (src/collection/map.rs lines 66-100): panics if the
cursor's schema node is not a map; an empty map (value address 0) yields an
iterator with no head; otherwise the head item is loaded.  (The head address
read through `NP_Map_Bytes::get_head` is the leading u16 of the map's own
cell, i.e. the cell's value address.) -/
def NP_Map.new_iter (map_cursor : NP_Cursor) (m : NP_Memory) :
    RResult NP_Map_State :=
  match schema_at m map_cursor.schema_addr with
  | .map _ value_of =>
    if read_u16 m map_cursor.buff_addr = 0 then
      .ok ⟨Option.none, Option.none, Option.none, map_cursor, value_of⟩
    else
      let head_addr := read_u16 m map_cursor.buff_addr
      .ok ⟨Option.none, Option.none,
           some ⟨get_key m head_addr, head_addr⟩, map_cursor, value_of⟩
  | _ => .panics

/-- `NP_Map::step_iter` (src/collection/map.rs lines 102-134): the first
step yields the head; each later step follows the current cell's
`next_addr`, stopping at 0.  Returns the emitted `(key, cursor)` pair and
the advanced iterator. -/
def NP_Map.step_iter (it : NP_Map_State) (m : NP_Memory) :
    Option ((List Nat × NP_Cursor) × NP_Map_State) :=
  match it.head with
  | Option.none => Option.none
  | some head =>
    match it.current with
    | Option.none =>
      some ((head.key, NP_Cursor.new head.buff_addr it.value_of it.map.schema_addr),
            { it with current := some head })
    | some current =>
      let next := read_u16 m (current.buff_addr + 2)
      if next = 0 then Option.none
      else
        let key := get_key m next
        some ((key, NP_Cursor.new next it.value_of it.map.schema_addr),
              { it with previous := it.current, current := some ⟨key, next⟩ })

/-- The `(key, cursor)` pairs emitted by repeatedly calling `step_iter`,
up to `fuel` steps (the source loop `while let Some(..) = step_iter`). -/
def NP_Map.iterList (m : NP_Memory) : NP_Map_State → Nat → List (List Nat × NP_Cursor)
  | _, 0 => []
  | it, fuel + 1 =>
    match NP_Map.step_iter it m with
    | Option.none => []
    | some (e, it') => e :: NP_Map.iterList m it' fuel

/-- `NP_Map::insert` (src/collection/map.rs lines 137-169): panic unless the
schema node is a map; reject keys of 255 or more bytes; allocate a
zero-filled 6-byte item cell, then the key record (length byte, then the
key bytes); point the cell's `key_addr` at the record; set the map head to
the new cell and, if the old head was non-zero, the new cell's `next_addr`
to it. -/
def NP_Map.insert (map_cursor : NP_Cursor) (m : NP_Memory) (key : List Nat) :
    RResult NP_Cursor × NP_Memory :=
  match schema_at m map_cursor.schema_addr with
  | .map _ value_of =>
    if 255 ≤ key.length then (.err errKeyTooLong, m)
    else
      match malloc_borrow m (List.replicate 6 0) with
      | (.ok new_cursor_addr, m1) =>
        match malloc_borrow m1 [key.length] with
        | (.ok key_item_addr, m2) =>
          match malloc_borrow m2 key with
          | (.ok _, m3) =>
            let m4 := write_u16 m3 (new_cursor_addr + 4) key_item_addr
            let head := read_u16 m4 map_cursor.buff_addr
            let m5 := write_u16 m4 map_cursor.buff_addr new_cursor_addr
            let m6 := if head ≠ 0 then write_u16 m5 (new_cursor_addr + 2) head else m5
            (.ok (NP_Cursor.new new_cursor_addr value_of map_cursor.schema_addr), m6)
          | (e, mm) => (e.map (fun _ => NP_Cursor.new 0 0 0), mm)
        | (e, mm) => (e.map (fun _ => NP_Cursor.new 0 0 0), mm)
      | (e, mm) => (e.map (fun _ => NP_Cursor.new 0 0 0), mm)
  | _ => (.panics, m)

/-- One step of the select loop of `NP_Map::select`: compare the next
emitted key against the requested key. -/
def NP_Map.selectLoop (m : NP_Memory) (key : List Nat) (map_cursor : NP_Cursor) :
    NP_Map_State → Nat → RResult NP_Cursor × NP_Memory
  | _, 0 => (.outOfFuel, m)
  | it, fuel + 1 =>
    match NP_Map.step_iter it m with
    | Option.none => NP_Map.insert map_cursor m key
    | some ((ikey, item), it') =>
      if ikey = key then (.ok item, m)
      else NP_Map.selectLoop m key map_cursor it' fuel

/-- `NP_Map::select` (src/collection/map.rs lines 36-58): panic unless the
schema node is a map; with `schema_only` return a virtual cursor (buffer
address 0) over the map's value schema; otherwise walk the chain from the
head and return the first item with an equal key, falling back to `insert`
when the walk ends without a match. -/
def NP_Map.select (fuel : Nat) (map_cursor : NP_Cursor) (key : List Nat)
    (schema_only : Bool) (m : NP_Memory) : RResult NP_Cursor × NP_Memory :=
  match schema_at m map_cursor.schema_addr with
  | .map _ value_of =>
    if schema_only then
      (.ok (NP_Cursor.new 0 value_of map_cursor.schema_addr), m)
    else
      match NP_Map.new_iter map_cursor m with
      | .ok it => NP_Map.selectLoop m key map_cursor it fuel
      | _ => (.panics, m)
  | _ => (.panics, m)

/-! ## Schema parsing: JSON to schema and bytes to schema -/

/-- The JSON value type used for schemas (`NP_JSON` of json_flex, modelled:
json_flex is not part of the provided source).  Dictionary keys are
strings. -/
inductive NP_JSON where
  | null
  | jstring (s : String)
  | jnumber (n : Nat)
  | jbool (b : Bool)
  | dictionary (entries : List (String × NP_JSON))
  | array (items : List NP_JSON)

/-- Modelled from the spec: json_flex indexing `json["key"]` yields the
entry's value, or `Null` when absent or not an object. -/
def NP_JSON.index (j : NP_JSON) (k : String) : NP_JSON :=
  match j with
  | .dictionary entries =>
    match entries.find? (fun e => e.1 == k) with
    | some e => e.2
    | Option.none => .null
  | _ => .null

/-- Modelled from the spec (sections 4.3 and 6): the `uint8` scalar schema
parser.  It appends a `Uint8` node (fixed-width integers are sortable) and
emits `[type_tag, has_default flag, default byte...]`; the default is the
`default` property truncated to a byte. -/
def uint8_from_json_to_schema (schema : List NP_Parsed_Schema) (j : NP_JSON) :
    RResult (Bool × List Nat × List NP_Parsed_Schema) :=
  match j.index "default" with
  | .jnumber n =>
    .ok (true, [NP_TypeKeys.uint8.toNat, 1, n % 256],
         schema ++ [.uint8 true (some (n % 256))])
  | _ =>
    .ok (true, [NP_TypeKeys.uint8.toNat, 0], schema ++ [.uint8 true Option.none])

/-- `NP_Schema::from_json` in the `Vec`-accumulator form called by
src/collection/map.rs line 285, together with `NP_Map::from_json_to_schema`
(src/collection/map.rs lines 265-291).  The dispatcher (modelled from the
spec, section 4.3: each type's parser claims its own `type` string, an
unmatched or missing `type` is an error) covers the `uint8` and `map`
types of the modelled fragment.  The map parser is embedded from the
source: push tag byte 22, append a `Map` node whose value-schema position
is the next slot, reject a missing `value` property, then recurse on the
`value` sub-schema and append its bytes. -/
def NP_Schema.from_json : Nat → List NP_Parsed_Schema → NP_JSON →
    RResult (Bool × List Nat × List NP_Parsed_Schema)
  | 0, _, _ => .outOfFuel
  | fuel + 1, schema, j =>
    match j.index "type" with
    | .jstring t =>
      if t = "uint8" then uint8_from_json_to_schema schema j
      else if t = "map" then
        -- NP_Map::from_json_to_schema (source)
        let value_addr := schema.length
        let schema1 := schema ++ [.map false (value_addr + 1)]
        match j.index "value" with
        | .null => .err errMapRequiresValue
        | _ =>
          match NP_Schema.from_json fuel schema1 (j.index "value") with
          | .ok (_, child_bytes, schema2) =>
            .ok (false, NP_TypeKeys.map.toNat :: child_bytes, schema2)
          | .err e => .err e
          | .panics => .panics
          | .outOfFuel => .outOfFuel
          | .undefinedBehavior => .undefinedBehavior
      else .err errUnknownSchemaType
    | _ => .err errMissingType

/-- Modelled from the spec: the `uint8` byte-schema parser, mirror of
`uint8_from_json_to_schema`. -/
def uint8_from_bytes_to_schema (schema : List NP_Parsed_Schema) (address : Nat)
    (bytes : List Nat) : Bool × List NP_Parsed_Schema :=
  if bytes.getD (address + 1) 0 = 1 then
    (true, schema ++ [.uint8 true (some (bytes.getD (address + 2) 0))])
  else
    (true, schema ++ [.uint8 true Option.none])

/-- `NP_Schema::from_bytes` (src/schema.rs lines 833-862) in the
`Vec`-accumulator form called by src/collection/map.rs line 304: convert
the lead byte through `NP_TypeKeys::from` (which panics on bytes above 25
and transmutes 25 into an invalid value) and dispatch.  The `None` arm of
the dispatcher panics, as in the source.  The map arm is
`NP_Map::from_bytes_to_schema` (src/collection/map.rs lines 297-306):
append a `Map` node whose value-schema position is the next slot and
recurse at `address + 1`.  Type keys outside the modelled fragment map to
their (unmodelled) parsers, represented as panics and unreachable from the
theorems below. -/
def NP_Schema.from_bytes : Nat → List NP_Parsed_Schema → Nat → List Nat →
    RResult (Bool × List NP_Parsed_Schema)
  | 0, _, _, _ => .outOfFuel
  | fuel + 1, schema, address, bytes =>
    match np_typeKeys_from_u8 (bytes.getD address 0) with
    | .ok NP_TypeKeys.uint8 => .ok (uint8_from_bytes_to_schema schema address bytes)
    | .ok NP_TypeKeys.map =>
      let of_addr := schema.length
      let schema1 := schema ++ [.map false (of_addr + 1)]
      match NP_Schema.from_bytes fuel schema1 (address + 1) bytes with
      | .ok (_, schema2) => .ok (false, schema2)
      | .err e => .err e
      | .panics => .panics
      | .outOfFuel => .outOfFuel
      | .undefinedBehavior => .undefinedBehavior
    | .ok NP_TypeKeys.none => .panics
    | .ok _ => .panics
    | .err e => .err e
    | .panics => .panics
    | .outOfFuel => .outOfFuel
    | .undefinedBehavior => .undefinedBehavior

/-! ## Scalar codec, compaction and JSON encoding -/

/-- Write a byte slice starting at `i`. -/
def write_bytes (m : NP_Memory) (i : Nat) (vs : List Nat) : NP_Memory :=
  match vs with
  | [] => m
  | v :: rest => write_bytes (write_byte m i v) (i + 1) rest

/-- Modelled from the spec (sections 4.4 and 8): a fixed-width scalar's
`into_value` reads the `width` payload bytes at the cell's value address,
`None` when the value address is 0. -/
def scalar_into_value (width : Nat) (c : NP_Cursor) (m : NP_Memory) :
    RResult (Option (List Nat)) :=
  let va := read_u16 m c.buff_addr
  if va = 0 then .ok Option.none else .ok (some (read_slice m va width))

/-- Modelled from the spec: a fixed-width scalar's `set_value` writes in
place when a payload exists, otherwise allocates the payload and points the
cell at it. -/
def scalar_set_value (c : NP_Cursor) (m : NP_Memory) (value : List Nat) :
    RResult NP_Cursor × NP_Memory :=
  let va := read_u16 m c.buff_addr
  if va ≠ 0 then (.ok c, write_bytes m va value)
  else
    match malloc_borrow m (value.map (fun v => v % 256)) with
    | (.ok addr, m1) => (.ok c, write_u16 m1 c.buff_addr addr)
    | (e, m1) => (e.map (fun _ => c), m1)

/-- The default `NP_Value::do_compact` of the trait (src/pointer/mod.rs
lines 492-502): `set_value(to, x)` for `Some x = into_value(from)`, no-op
for `None`. -/
def scalar_do_compact (width : Nat) (from_c : NP_Cursor) (from_m : NP_Memory)
    (to_c : NP_Cursor) (to_m : NP_Memory) : RResult NP_Cursor × NP_Memory :=
  match scalar_into_value width from_c from_m with
  | .ok (some x) => scalar_set_value to_c to_m x
  | .ok Option.none => (.ok to_c, to_m)
  | .err e => (.err e, to_m)
  | .panics => (.panics, to_m)
  | .outOfFuel => (.outOfFuel, to_m)
  | .undefinedBehavior => (.undefinedBehavior, to_m)

mutual

/-- `NP_Cursor::compact` (src/pointer/mod.rs lines 325-360): nothing to do
when the source value address is 0; otherwise dispatch on the source
schema's type.  `Any` copies nothing; scalars use the trait-default
`do_compact`; maps recurse into `NP_Map::do_compact`.  The list and tuple
engines are outside the modelled fragment (their arms are marked as panics
and are unreachable from every theorem below); the `None` arm panics in
the source. -/
def NP_Cursor.compact : Nat → NP_Cursor → NP_Memory → NP_Cursor → NP_Memory →
    RResult NP_Cursor × NP_Memory
  | 0, _, _, _, to_m => (.outOfFuel, to_m)
  | fuel + 1, from_c, from_m, to_c, to_m =>
    if read_u16 from_m from_c.buff_addr = 0 then (.ok to_c, to_m)
    else
      match schema_at from_m from_c.schema_addr with
      | .any _ => (.ok to_c, to_m)
      | .uint8 _ _ => scalar_do_compact 1 from_c from_m to_c to_m
      | .int32 _ _ => scalar_do_compact 4 from_c from_m to_c to_m
      | .map _ _ => NP_Map.do_compact fuel from_c from_m to_c to_m
      | .list _ _ => (.panics, to_m)
      | .tuple _ _ => (.panics, to_m)
      | .none => (.panics, to_m)

/-- `NP_Map::do_compact` (src/collection/map.rs lines 244-263): nothing to
do for an empty source map; otherwise iterate the source and, for each
`(key, item)`, insert the key into the destination map and recursively
compact the item into the new destination item (both results are
`.unwrap()`ed by the source, so their errors become panics). -/
def NP_Map.do_compact : Nat → NP_Cursor → NP_Memory → NP_Cursor → NP_Memory →
    RResult NP_Cursor × NP_Memory
  | 0, _, _, _, to_m => (.outOfFuel, to_m)
  | fuel + 1, from_c, from_m, to_c, to_m =>
    if read_u16 from_m from_c.buff_addr = 0 then (.ok to_c, to_m)
    else
      match NP_Map.new_iter from_c from_m with
      | .ok it => NP_Map.compactLoop fuel it from_m to_c to_m
      | _ => (.panics, to_m)

/-- The `for_each` loop body of `NP_Map::do_compact`. -/
def NP_Map.compactLoop : Nat → NP_Map_State → NP_Memory → NP_Cursor → NP_Memory →
    RResult NP_Cursor × NP_Memory
  | 0, _, _, _, to_m => (.outOfFuel, to_m)
  | fuel + 1, it, from_m, to_c, to_m =>
    match NP_Map.step_iter it from_m with
    | Option.none => (.ok to_c, to_m)
    | some ((key, item), it') =>
      match NP_Map.insert to_c to_m key with
      | (.ok new_item, to_m1) =>
        match NP_Cursor.compact fuel item from_m new_item to_m1 with
        | (.ok _, to_m2) => NP_Map.compactLoop fuel it' from_m to_c to_m2
        | (_, to_m2) => (.panics, to_m2)
      | (_, to_m1) => (.panics, to_m1)

end

/-- Buffer JSON documents, as produced by `json_encode`.  Object keys are
the maps' byte-string keys; `unmodeled` marks fragments outside the
modelled universe (never produced for the schemas the theorems use). -/
inductive NP_Buf_JSON where
  | null
  | jnumber (n : Nat)
  | dictionary (entries : List (List Nat × NP_Buf_JSON))
  | unmodeled

mutual

/-- `NP_Cursor::json_encode` (src/pointer/mod.rs lines 288-323): `Null`
when the value address is 0, otherwise dispatch on the schema's type.
`None` and `Any` encode as `Null`; `uint8` as the payload byte; maps
recurse; the remaining codecs are outside the modelled fragment. -/
def NP_Cursor.json_encode : Nat → NP_Cursor → NP_Memory → NP_Buf_JSON
  | 0, _, _ => .unmodeled
  | fuel + 1, c, m =>
    if read_u16 m c.buff_addr = 0 then .null
    else
      match schema_at m c.schema_addr with
      | .none => .null
      | .any _ => .null
      | .uint8 _ _ => .jnumber (read_byte m (read_u16 m c.buff_addr))
      | .int32 _ _ => .unmodeled
      | .map _ _ => NP_Map.to_json fuel c m
      | .list _ _ => .unmodeled
      | .tuple _ _ => .unmodeled

/-- `NP_Map::to_json` (src/collection/map.rs lines 226-242): `Null` for an
empty map, otherwise an object with one `key -> json_encode(item)` entry
per iterated item.  (JSMAP, which is not part of the provided source, is
modelled from the spec as the list of inserted entries.) -/
def NP_Map.to_json : Nat → NP_Cursor → NP_Memory → NP_Buf_JSON
  | 0, _, _ => .unmodeled
  | fuel + 1, c, m =>
    if read_u16 m c.buff_addr = 0 then .null
    else
      match NP_Map.new_iter c m with
      | .ok it =>
        .dictionary ((NP_Map.iterList m it (fuel + 1)).map
          (fun e => (e.1, NP_Cursor.json_encode fuel e.2 m)))
      | _ => .unmodeled

end

/-! ## Cursor navigation: typed access and path selection -/

/-- Type key of a parsed schema node (`get_type_key`). -/
def NP_Parsed_Schema.get_type_key : NP_Parsed_Schema → NP_TypeKeys
  | .none => .none
  | .any _ => .any
  | .uint8 _ _ => .uint8
  | .int32 _ _ => .int32
  | .map _ _ => .map
  | .list _ _ => .list
  | .tuple _ _ => .tuple

/-- `into_type_data` (src/schema.rs lines 698-726), restricted to the tag
and type key (the middle `String` component is dropped): the `None` variant
yields tag 0; every other variant reports its type's tag, which per the
spec is the type-key ordinal. -/
def NP_Parsed_Schema.into_type_data (s : NP_Parsed_Schema) : Nat × NP_TypeKeys :=
  (s.get_type_key.toNat, s.get_type_key)

/-- A value type pluggable into `get_here::<T>`/`set_here::<T>`: its type
tag and its codec entry points (the `NP_Value` trait). -/
structure NP_Codec where
  tag : Nat
  into_value : NP_Cursor → NP_Memory → RResult (Option (List Nat))
  set_value : NP_Cursor → NP_Memory → List Nat → RResult NP_Cursor × NP_Memory
  schema_default : NP_Parsed_Schema → Option (List Nat)

/-- `NP_Cursor::get_here::<T>` (src/pointer/mod.rs lines 228-241): reject
with a typecast error when `T`'s tag differs from the governing schema
node's tag; otherwise read through the codec, substituting the schema
default when nothing is stored. -/
def NP_Cursor.get_here (sch : NP_Parsed_Schema) (T : NP_Codec) (c : NP_Cursor)
    (m : NP_Memory) : RResult (Option (List Nat)) :=
  if sch.into_type_data.1 ≠ T.tag then .err errTypecast
  else
    match T.into_value c m with
    | .ok (some x) => .ok (some x)
    | .ok Option.none => .ok (T.schema_default sch)
    | .err e => .err e
    | .panics => .panics
    | .outOfFuel => .outOfFuel
    | .undefinedBehavior => .undefinedBehavior

/-- `NP_Cursor::set_here::<T>` (src/pointer/mod.rs lines 245-250): reject
with a typecast error when `T`'s tag differs from the governing schema
node's tag; otherwise write through the codec. -/
def NP_Cursor.set_here (sch : NP_Parsed_Schema) (T : NP_Codec) (c : NP_Cursor)
    (m : NP_Memory) (value : List Nat) : RResult NP_Cursor × NP_Memory :=
  if sch.into_type_data.1 ≠ T.tag then (.err errTypecast, m)
  else T.set_value c m value

/-- Rust's `str::parse` for an unsigned integer type with maximum value
`maxVal` (modelled on the standard library: an optional leading plus sign,
one or more ASCII digits, failure on any other character, on emptiness and
on overflow). -/
def parseUnsigned (maxVal : Nat) (s : String) : Option Nat :=
  let chars :=
    match s.data with
    | '+' :: rest => rest
    | cs => cs
  if chars = [] then Option.none
  else if chars.all (fun ch => ch.isDigit) then
    let v := chars.foldl (fun acc ch => acc * 10 + (ch.toNat - 48)) 0
    if v ≤ maxVal then some v else Option.none
  else Option.none

/-- UTF-8 bytes of a Rust `&str` path segment or map key. -/
def strBytes (s : String) : List Nat :=
  s.data.flatMap (fun ch => (String.utf8EncodeChar ch).map (fun b => b.toNat))

/-- Modelled from the spec (section 4.6): `NP_List::select_to_ptr` walks
the index-ascending linked list from the head; an item with the requested
index is returned; otherwise a virtual cursor carrying the index is
returned for a later commit.  List layout per the spec: a 4-byte header
`(head_addr, tail_addr)` at the list's value address; items are
`(value:u16, next:u16, index:u16)` cells. -/
def NP_List.walkSelect (m : NP_Memory) (of parent_schema parent_cell i : Nat) :
    Nat → Nat → RResult NP_Cursor
  | _, 0 => .outOfFuel
  | addr, fuel + 1 =>
    if addr = 0 then
      .ok ⟨0, of, parent_schema, some parent_cell, some i⟩
    else
      let idx := read_u16 m (addr + 4)
      if idx = i then .ok ⟨addr, of, parent_schema, some parent_cell, some i⟩
      else if i < idx then .ok ⟨0, of, parent_schema, some parent_cell, some i⟩
      else NP_List.walkSelect m of parent_schema parent_cell i (read_u16 m (addr + 2)) fuel

/-- Modelled from the spec (section 4.6): list select; an unallocated list
yields a virtual cursor over the element schema. -/
def NP_List.select_to_ptr (fuel : Nat) (c : NP_Cursor) (m : NP_Memory) (i : Nat) :
    RResult NP_Cursor :=
  match schema_at m c.schema_addr with
  | .list _ of =>
    let va := read_u16 m c.buff_addr
    if va = 0 then .ok ⟨0, of, c.schema_addr, some c.buff_addr, some i⟩
    else NP_List.walkSelect m of c.schema_addr c.buff_addr i (read_u16 m va) fuel
  | _ => .panics

/-- Modelled from the spec (section 4.8): `NP_Tuple::select_to_ptr` fails
when the index is at or beyond the arity; otherwise the cursor addresses
the 2-byte slot at `value_addr + 2 * i` (virtual when the tuple itself is
unallocated). -/
def NP_Tuple.select_to_ptr (c : NP_Cursor) (m : NP_Memory) (i : Nat) :
    RResult NP_Cursor :=
  match schema_at m c.schema_addr with
  | .tuple _ values =>
    if values.length ≤ i then .err errTupleIndexOutOfRange
    else
      let va := read_u16 m c.buff_addr
      if va = 0 then .ok ⟨0, values.getD i 0, c.schema_addr, some c.buff_addr, some i⟩
      else .ok ⟨va + 2 * i, values.getD i 0, c.schema_addr, some c.buff_addr, some i⟩
  | _ => .panics

/-- `NP_Cursor::select` (src/pointer/mod.rs lines 111-166): return the
current cursor when the path is exhausted; otherwise dispatch on the
current schema type.  A map consumes the segment as a key; a list parses
the segment as a `u16` and a tuple as a `u8`, failing on a segment that
does not parse; reaching a scalar before the path ends stops short,
returning the current cursor. -/
def NP_Cursor.select : Nat → NP_Cursor → NP_Memory → List String → Nat →
    RResult (Option NP_Cursor) × NP_Memory
  | 0, _, m, _, _ => (.outOfFuel, m)
  | fuel + 1, c, m, path, path_index =>
    if path.length = path_index then (.ok (some c), m)
    else
      match schema_at m c.schema_addr with
      | .map _ _ =>
        match NP_Map.select fuel c (strBytes (path.getD path_index "")) false m with
        | (.ok nc, m1) => NP_Cursor.select fuel nc m1 path (path_index + 1)
        | (r, m1) => (r.map (fun x => some x), m1)
      | .list _ _ =>
        match parseUnsigned 65535 (path.getD path_index "") with
        | some x =>
          match NP_List.select_to_ptr fuel c m x with
          | .ok nc => NP_Cursor.select fuel nc m path (path_index + 1)
          | r => (r.map (fun x => some x), m)
        | Option.none => (.err errPathListNotNumber, m)
      | .tuple _ _ =>
        match parseUnsigned 255 (path.getD path_index "") with
        | some x =>
          match NP_Tuple.select_to_ptr c m x with
          | .ok nc => NP_Cursor.select fuel nc m path (path_index + 1)
          | r => (r.map (fun x => some x), m)
        | Option.none => (.err errPathTupleNotNumber, m)
      | _ => (.ok (some c), m)

/-- Modelled from the spec (section 4.6): the splice walk of list commit —
find the last cell whose index precedes the new index and link the new cell
after it, updating the tail when the new cell becomes last. -/
def NP_List.spliceLoop (header cellAddr i : Nat) :
    Nat → NP_Memory → Nat → RResult NP_Memory
  | 0, _, _ => .outOfFuel
  | fuel + 1, m, prev =>
    let nxt := read_u16 m (prev + 2)
    if nxt = 0 then
      .ok (write_u16 (write_u16 m (prev + 2) cellAddr) (header + 2) cellAddr)
    else if i < read_u16 m (nxt + 4) then
      .ok (write_u16 (write_u16 m (cellAddr + 2) nxt) (prev + 2) cellAddr)
    else NP_List.spliceLoop header cellAddr i fuel m nxt

/-- Modelled from the spec (sections 3 and 4.6): `NP_List::commit_pointer`
materializes a virtual list item: allocate the list header on first use,
allocate a fresh `(value, next, index)` cell carrying the cursor's index,
and splice it into the chain so that ascending index order is preserved,
updating head and tail as needed.  A real (non-virtual) cursor commits to
itself. -/
def NP_List.commit_pointer (fuel : Nat) (c : NP_Cursor) (m : NP_Memory) :
    RResult NP_Cursor × NP_Memory :=
  if c.buff_addr ≠ 0 then (.ok c, m)
  else
    match c.item_index, c.parent_addr with
    | some i, some listCell =>
      let headerAlloc :=
        if read_u16 m listCell = 0 then
          match malloc_borrow m (List.replicate 4 0) with
          | (.ok addr, m1) => (RResult.ok addr, write_u16 m1 listCell addr)
          | (e, m1) => (e, m1)
        else (RResult.ok (read_u16 m listCell), m)
      match headerAlloc with
      | (.ok header, m1) =>
        match malloc_borrow m1 [0, 0, 0, 0, i / 256 % 256, i % 256] with
        | (.ok cellAddr, m2) =>
          let newCursor : NP_Cursor :=
            ⟨cellAddr, c.schema_addr, c.parent_schema_addr, c.parent_addr, some i⟩
          let head := read_u16 m2 header
          if head = 0 then
            (.ok newCursor, write_u16 (write_u16 m2 header cellAddr) (header + 2) cellAddr)
          else if i < read_u16 m2 (head + 4) then
            (.ok newCursor, write_u16 (write_u16 m2 (cellAddr + 2) head) header cellAddr)
          else
            match NP_List.spliceLoop header cellAddr i fuel m2 head with
            | .ok m3 => (.ok newCursor, m3)
            | .err e => (.err e, m2)
            | .panics => (.panics, m2)
            | .outOfFuel => (.outOfFuel, m2)
            | .undefinedBehavior => (.undefinedBehavior, m2)
        | (e, m2) => (e.map (fun _ => c), m2)
      | (e, m1) => (e.map (fun _ => c), m1)
    | _, _ => (.panics, m)

/-- Modelled from the spec (sections 3 and 4.5): `NP_Map::commit_pointer` —
map select with `schema_only = false` already materializes missing items,
so commit passes a real cursor through unchanged (a virtual map cursor
carries no key to materialize and cannot be committed). -/
def NP_Map.commit_pointer (c : NP_Cursor) (m : NP_Memory) :
    RResult NP_Cursor × NP_Memory :=
  if c.buff_addr ≠ 0 then (.ok c, m) else (.panics, m)

/-- `NP_Cursor::select_with_commit` (src/pointer/mod.rs lines 168-225): as
`select`, but map and list items are committed (materialized) along the
way; tuple slots are not committed; list and tuple segments that do not
parse as integers fail exactly as in `select`. -/
def NP_Cursor.select_with_commit : Nat → NP_Cursor → NP_Memory → List String → Nat →
    RResult (Option NP_Cursor) × NP_Memory
  | 0, _, m, _, _ => (.outOfFuel, m)
  | fuel + 1, c, m, path, path_index =>
    if path.length = path_index then (.ok (some c), m)
    else
      match schema_at m c.schema_addr with
      | .map _ _ =>
        match NP_Map.select fuel c (strBytes (path.getD path_index "")) false m with
        | (.ok nc, m1) =>
          match NP_Map.commit_pointer nc m1 with
          | (.ok nc2, m2) => NP_Cursor.select_with_commit fuel nc2 m2 path (path_index + 1)
          | (r, m2) => (r.map (fun x => some x), m2)
        | (r, m1) => (r.map (fun x => some x), m1)
      | .list _ _ =>
        match parseUnsigned 65535 (path.getD path_index "") with
        | some x =>
          match NP_List.select_to_ptr fuel c m x with
          | .ok nc =>
            match NP_List.commit_pointer fuel nc m with
            | (.ok nc2, m2) => NP_Cursor.select_with_commit fuel nc2 m2 path (path_index + 1)
            | (r, m2) => (r.map (fun x => some x), m2)
          | r => (r.map (fun x => some x), m)
        | Option.none => (.err errPathListNotNumber, m)
      | .tuple _ _ =>
        match parseUnsigned 255 (path.getD path_index "") with
        | some x =>
          match NP_Tuple.select_to_ptr c m x with
          | .ok nc => NP_Cursor.select_with_commit fuel nc m path (path_index + 1)
          | r => (r.map (fun x => some x), m)
        | Option.none => (.err errPathTupleNotNumber, m)
      | _ => (.ok (some c), m)

/-! ## Basic facts -/

/-- Results that correspond to the Rust function returning (`Ok` or `Err`)
rather than panicking or diverging. -/
def isOkOrErr {α : Type} : RResult α → Prop
  | .ok _ => True
  | .err _ => True
  | _ => False

theorem read_byte_lt_256 (m : NP_Memory) (i : Nat) : read_byte m i < 256 := by
  simp only [read_byte]
  omega

theorem read_u16_lt_65536 (m : NP_Memory) (i : Nat) : read_u16 m i < 65536 := by
  have h1 := read_byte_lt_256 m i
  have h2 := read_byte_lt_256 m (i + 1)
  simp only [read_u16]
  omega

theorem schema_write_byte (m : NP_Memory) (i v : Nat) :
    (write_byte m i v).schema = m.schema := rfl

theorem length_write_byte (m : NP_Memory) (i v : Nat) :
    (write_byte m i v).bytes.length = m.bytes.length := by
  simp [write_byte]

theorem schema_write_u16 (m : NP_Memory) (i v : Nat) :
    (write_u16 m i v).schema = m.schema := rfl

theorem length_write_u16 (m : NP_Memory) (i v : Nat) :
    (write_u16 m i v).bytes.length = m.bytes.length := by
  simp [write_u16, write_byte]

theorem read_byte_write_byte_ne (m : NP_Memory) (i j v : Nat) (h : i ≠ j) :
    read_byte (write_byte m j v) i = read_byte m i := by
  simp [read_byte, write_byte, List.getD_eq_getElem?_getD,
    List.getElem?_set_ne (Ne.symm h)]

theorem read_byte_write_byte_self (m : NP_Memory) (j v : Nat)
    (h : j < m.bytes.length) :
    read_byte (write_byte m j v) j = v % 256 := by
  simp only [read_byte, write_byte, List.getD_eq_getElem?_getD,
    List.getElem?_set_self, h, if_true]
  simp [h]

theorem read_byte_write_u16_ne (m : NP_Memory) (i j v : Nat)
    (h1 : i ≠ j) (h2 : i ≠ j + 1) :
    read_byte (write_u16 m j v) i = read_byte m i := by
  simp [write_u16, read_byte_write_byte_ne _ _ _ _ h2,
    read_byte_write_byte_ne _ _ _ _ h1]

theorem read_u16_write_u16_ne (m : NP_Memory) (i j v : Nat)
    (h1 : i ≠ j) (h2 : i ≠ j + 1) (h3 : i + 1 ≠ j) (h4 : i + 1 ≠ j + 1) :
    read_u16 (write_u16 m j v) i = read_u16 m i := by
  simp [read_u16, read_byte_write_u16_ne _ _ _ _ h1 h2,
    read_byte_write_u16_ne _ _ _ _ h3 h4]

theorem read_u16_write_u16_self (m : NP_Memory) (j v : Nat)
    (h : j + 1 < m.bytes.length) (hv : v < 65536) :
    read_u16 (write_u16 m j v) j = v := by
  have hj : j < m.bytes.length := by omega
  have hi : read_byte (write_u16 m j v) j = v / 256 % 256 := by
    rw [write_u16, read_byte_write_byte_ne _ _ _ _ (by omega)]
    rw [read_byte_write_byte_self _ _ _ hj, Nat.mod_mod]
  have hlo : read_byte (write_u16 m j v) (j + 1) = v % 256 := by
    rw [write_u16, read_byte_write_byte_self, Nat.mod_mod]
    rw [length_write_byte]; exact h
  rw [read_u16, hi, hlo]
  omega

theorem read_byte_mk_append_lt (bs ds : List Nat) (sch sch' : List NP_Parsed_Schema)
    (i : Nat) (h : i < bs.length) :
    read_byte ⟨bs ++ ds, sch⟩ i = read_byte ⟨bs, sch'⟩ i := by
  simp [read_byte, List.getD_eq_getElem?_getD, List.getElem?_append_left h]

theorem read_byte_mk_append_right (bs ds : List Nat) (sch : List NP_Parsed_Schema)
    (i : Nat) (h : bs.length ≤ i) :
    read_byte ⟨bs ++ ds, sch⟩ i = ds.getD (i - bs.length) 0 % 256 := by
  simp [read_byte, List.getD_eq_getElem?_getD, List.getElem?_append_right h]

/-- The memory produced by a successful `NP_Map::insert` on the map cell at
`a`: the three allocations (zero-filled cell, key length byte, key bytes)
followed by the key-address write, the head write and — for a non-empty
map — the next-pointer write. -/
def insertResultMem (m : NP_Memory) (a : Nat) (key : List Nat) : NP_Memory :=
  let L := m.bytes.length
  let m3 : NP_Memory := ⟨m.bytes ++ List.replicate 6 0 ++ [key.length] ++ key, m.schema⟩
  let m4 := write_u16 m3 (L + 4) (L + 6)
  let head := read_u16 m4 a
  let m5 := write_u16 m4 a L
  if head ≠ 0 then write_u16 m5 (L + 2) head else m5

/-- Successful-case equation for `NP_Map::insert`: on a map-schema cursor,
with a key under 255 bytes and room in the address space, insert returns
the cursor of the fresh cell (allocated at the old buffer end) and the
memory `insertResultMem`. -/
theorem insert_eq_of_size (m : NP_Memory) (c : NP_Cursor) (key : List Nat)
    (srt : Bool) (vof : Nat)
    (hsch : schema_at m c.schema_addr = NP_Parsed_Schema.map srt vof)
    (hk : key.length ≤ 254)
    (hsz : m.bytes.length + 7 + key.length ≤ 65535) :
    NP_Map.insert c m key =
      (.ok (NP_Cursor.new m.bytes.length vof c.schema_addr),
       insertResultMem m c.buff_addr key) := by
  simp only [NP_Map.insert, hsch]
  rw [if_neg (by omega)]
  simp only [malloc_borrow, List.length_replicate]
  rw [if_neg (by omega)]
  dsimp only
  simp only [List.length_append, List.length_replicate, List.length_cons,
    List.length_nil]
  rw [if_neg (by omega)]
  dsimp only
  simp only [List.length_append, List.length_replicate, List.length_cons,
    List.length_nil]
  rw [if_neg (by omega)]
  dsimp only
  simp only [insertResultMem, List.length_append, List.length_replicate,
    List.length_cons, List.length_nil]

/-- Overflow case for `NP_Map::insert`: when the allocations do not fit the
2-byte address space, the result is the out-of-memory error. -/
theorem insert_overflow (m : NP_Memory) (c : NP_Cursor) (key : List Nat)
    (srt : Bool) (vof : Nat)
    (hsch : schema_at m c.schema_addr = NP_Parsed_Schema.map srt vof)
    (hk : key.length ≤ 254)
    (hsz : ¬ m.bytes.length + 7 + key.length ≤ 65535) :
    (NP_Map.insert c m key).1 = RResult.err errOutOfMemory := by
  simp only [NP_Map.insert, hsch]
  rw [if_neg (by omega)]
  simp only [malloc_borrow, List.length_replicate]
  by_cases c1 : m.bytes.length + 6 > 65535
  · rw [if_pos c1]; rfl
  · rw [if_neg c1]
    dsimp only
    simp only [List.length_append, List.length_replicate, List.length_cons,
      List.length_nil]
    by_cases c2 : m.bytes.length + 6 + (0 + 1) > 65535
    · rw [if_pos c2]; rfl
    · rw [if_neg c2]
      dsimp only
      simp only [List.length_append, List.length_replicate, List.length_cons,
        List.length_nil]
      rw [if_pos (by omega)]
      rfl

/-- On a map-schema cursor, `NP_Map::insert` returns `Ok` or `Err` (never a
panic). -/
theorem insert_isOkOrErr (m : NP_Memory) (c : NP_Cursor) (key : List Nat)
    (srt : Bool) (vof : Nat)
    (hsch : schema_at m c.schema_addr = NP_Parsed_Schema.map srt vof) :
    isOkOrErr (NP_Map.insert c m key).1 := by
  by_cases hk : 255 ≤ key.length
  · simp only [NP_Map.insert, hsch]
    rw [if_pos hk]; trivial
  · by_cases hsz : m.bytes.length + 7 + key.length ≤ 65535
    · rw [insert_eq_of_size m c key srt vof hsch (by omega) hsz]; trivial
    · have := insert_overflow m c key srt vof hsch (by omega) hsz
      rw [this]; trivial

/-- On a map-schema cursor, the only key-length rejection of
`NP_Map::insert` concerns keys of 255 bytes or more. -/
theorem insert_ne_keyTooLong (m : NP_Memory) (c : NP_Cursor) (key : List Nat)
    (srt : Bool) (vof : Nat)
    (hsch : schema_at m c.schema_addr = NP_Parsed_Schema.map srt vof)
    (hk : key.length ≤ 254) :
    (NP_Map.insert c m key).1 ≠ RResult.err errKeyTooLong := by
  by_cases hsz : m.bytes.length + 7 + key.length ≤ 65535
  · rw [insert_eq_of_size m c key srt vof hsch hk hsz]; simp
  · rw [insert_overflow m c key srt vof hsch hk hsz]
    simp [errOutOfMemory, errKeyTooLong]

/-- A complete-buffer map schema over a `uint8` value schema, with the root
cell at offset 1 (offset 0 is the reserved sentinel): the `empty` buffer of
the map engine scenarios. -/
def empty_map_mem : NP_Memory :=
  ⟨[0, 0, 0], [.map false 1, .uint8 true Option.none]⟩

/-- Root cursor of `empty_map_mem`: cell at offset 1, schema node 0. -/
def rootC : NP_Cursor := NP_Cursor.new 1 0 0


/-! ## The map-chain representation invariant -/

/-- Location data of one materialized map entry: its 6-byte item cell, its
key record address and bytes, and the stored value address. -/
structure MapLoc where
  cell : Nat
  keyAddr : Nat
  key : List Nat
  vaddr : Nat
  deriving DecidableEq, Repr

/-- The byte positions owned by a map entry: its cell, its key record and
(for uint8 payloads) its one-byte value payload. -/
def locTouch (i : Nat) (loc : MapLoc) : Prop :=
  (loc.cell ≤ i ∧ i < loc.cell + 6) ∨
  (loc.keyAddr ≤ i ∧ i < loc.keyAddr + 1 + loc.key.length) ∨
  (loc.vaddr ≠ 0 ∧ i = loc.vaddr)

/-- Well-formedness of one materialized map entry against the memory. -/
structure LocOK (m : NP_Memory) (loc : MapLoc) : Prop where
  cell_ne : loc.cell ≠ 0
  cell_le : loc.cell + 6 ≤ m.bytes.length
  keyAddr_eq : read_u16 m (loc.cell + 4) = loc.keyAddr
  key_le : loc.keyAddr + 1 + loc.key.length ≤ m.bytes.length
  keyLen_eq : read_byte m loc.keyAddr = loc.key.length
  key_small : loc.key.length ≤ 254
  key_eq : read_slice m (loc.keyAddr + 1) loc.key.length = loc.key
  vaddr_eq : read_u16 m loc.cell = loc.vaddr
  vaddr_lt : loc.vaddr ≠ 0 → loc.vaddr < m.bytes.length
  cell_key_disj : ∀ i, loc.cell ≤ i → i < loc.cell + 6 →
      ¬(loc.keyAddr ≤ i ∧ i < loc.keyAddr + 1 + loc.key.length)

/-- The singly-linked chain starting at address `a` consists exactly of the
given entries, in order, ending at the 0 terminator. -/
def chain (m : NP_Memory) : Nat → List MapLoc → Prop
  | a, [] => a = 0
  | a, loc :: rest =>
    a = loc.cell ∧ LocOK m loc ∧ chain m (read_u16 m (loc.cell + 2)) rest

/-- The full invariant of a map value: the cursor's schema node is a map,
the map's own cell is in bounds, the chain from the stored head address
represents `locs`, and all owned byte regions are mutually disjoint and
disjoint from the map's cell. -/
structure MapInv (m : NP_Memory) (c : NP_Cursor) (locs : List MapLoc) : Prop where
  isMap : ∃ srt vof, schema_at m c.schema_addr = NP_Parsed_Schema.map srt vof
  cellBound : c.buff_addr + 2 ≤ m.bytes.length
  rep : chain m (read_u16 m c.buff_addr) locs
  headDisj : ∀ loc ∈ locs,
      ¬ locTouch c.buff_addr loc ∧ ¬ locTouch (c.buff_addr + 1) loc
  pdisj : locs.Pairwise (fun l1 l2 => ∀ i, locTouch i l1 → ¬ locTouch i l2)

theorem locTouch_lt (m : NP_Memory) (loc : MapLoc) (h : LocOK m loc) (i : Nat)
    (ht : locTouch i loc) : i < m.bytes.length := by
  rcases ht with h1 | h2 | h3
  · have := h.cell_le; omega
  · have := h.key_le; omega
  · have := h.vaddr_lt h3.1; omega

theorem key_bytes_lt (m : NP_Memory) (loc : MapLoc) (h : LocOK m loc) :
    ∀ b ∈ loc.key, b < 256 := by
  intro b hb
  rw [← h.key_eq] at hb
  simp only [read_slice, List.mem_map, List.mem_range] at hb
  obtain ⟨k, _, rfl⟩ := hb
  exact read_byte_lt_256 _ _

/-- `get_key` reads the entry's key under `LocOK`. -/
theorem get_key_eq (m : NP_Memory) (loc : MapLoc) (h : LocOK m loc) :
    get_key m loc.cell = loc.key := by
  simp only [get_key, h.keyAddr_eq, h.keyLen_eq, h.key_eq]

theorem read_u16_congr (m m' : NP_Memory) (i : Nat)
    (h1 : read_byte m' i = read_byte m i)
    (h2 : read_byte m' (i + 1) = read_byte m (i + 1)) :
    read_u16 m' i = read_u16 m i := by
  simp only [read_u16, h1, h2]

theorem LocOK_preserve (m m' : NP_Memory) (loc : MapLoc) (h : LocOK m loc)
    (hlen : m.bytes.length ≤ m'.bytes.length)
    (hpres : ∀ i, locTouch i loc → read_byte m' i = read_byte m i) :
    LocOK m' loc := by
  have hcell : ∀ k, k < 6 → read_byte m' (loc.cell + k) = read_byte m (loc.cell + k) := by
    intro k hk
    exact hpres _ (Or.inl ⟨by omega, by omega⟩)
  have hkeyp : ∀ k, k < 1 + loc.key.length →
      read_byte m' (loc.keyAddr + k) = read_byte m (loc.keyAddr + k) := by
    intro k hk
    exact hpres _ (Or.inr (Or.inl ⟨by omega, by omega⟩))
  refine ⟨h.cell_ne, by have := h.cell_le; omega, ?_, by have := h.key_le; omega,
    ?_, h.key_small, ?_, ?_, fun hv => by have := h.vaddr_lt hv; omega,
    h.cell_key_disj⟩
  · rw [read_u16_congr m m' _ (hcell 4 (by omega)) (hcell 5 (by omega))]
    exact h.keyAddr_eq
  · rw [show loc.keyAddr = loc.keyAddr + 0 from rfl, hkeyp 0 (by omega)]
    exact h.keyLen_eq
  · have hsl : read_slice m' (loc.keyAddr + 1) loc.key.length =
        read_slice m (loc.keyAddr + 1) loc.key.length := by
      simp only [read_slice]
      refine List.map_congr_left ?_
      intro k hk
      simp only [List.mem_range] at hk
      calc read_byte m' (loc.keyAddr + 1 + k)
          = read_byte m' (loc.keyAddr + (1 + k)) := by ring_nf
        _ = read_byte m (loc.keyAddr + (1 + k)) := hkeyp (1 + k) (by omega)
        _ = read_byte m (loc.keyAddr + 1 + k) := by ring_nf
    rw [hsl, h.key_eq]
  · have h0 : read_byte m' loc.cell = read_byte m loc.cell := by
      have := hcell 0 (by omega)
      simpa using this
    rw [read_u16_congr m m' _ h0 (hcell 1 (by omega))]
    exact h.vaddr_eq

theorem chain_mem_locOK (m : NP_Memory) (a : Nat) (locs : List MapLoc)
    (h : chain m a locs) : ∀ loc ∈ locs, LocOK m loc := by
  induction locs generalizing a with
  | nil => intro loc hl; cases hl
  | cons l rest ih =>
    intro loc hl
    rcases List.mem_cons.mp hl with rfl | hl
    · exact h.2.1
    · exact ih _ h.2.2 loc hl

theorem chain_preserve (m m' : NP_Memory) (a : Nat) (locs : List MapLoc)
    (h : chain m a locs)
    (hlen : m.bytes.length ≤ m'.bytes.length)
    (hpres : ∀ loc ∈ locs, ∀ i, locTouch i loc → read_byte m' i = read_byte m i) :
    chain m' a locs := by
  induction locs generalizing a with
  | nil => exact h
  | cons l rest ih =>
    obtain ⟨ha, hOK, hnext⟩ := h
    have hpl : ∀ i, locTouch i l → read_byte m' i = read_byte m i :=
      hpres l (List.mem_cons_self l rest)
    refine ⟨ha, LocOK_preserve m m' l hOK hlen hpl, ?_⟩
    have hn : read_u16 m' (l.cell + 2) = read_u16 m (l.cell + 2) := by
      refine read_u16_congr m m' _ ?_ ?_
      · exact hpl _ (Or.inl ⟨by omega, by omega⟩)
      · exact hpl _ (Or.inl ⟨by omega, by omega⟩)
    rw [hn]
    exact ih _ hnext (fun loc hl => hpres loc (List.mem_cons_of_mem _ hl))



/-! ## Byte-level characterization of a successful insert -/

theorem map_range_getD (l : List Nat) :
    (List.range l.length).map (fun k => l.getD k 0) = l := by
  apply List.ext_getElem
  · simp
  · intro i h1 h2
    simp only [List.getElem_map, List.getElem_range, List.getD_eq_getElem?_getD,
      List.getElem?_eq_getElem h2, Option.getD_some]

/-- Reads, lengths and schema of the pre-write allocation state `m3` of a
successful insert. -/
theorem insert_m3_facts (m : NP_Memory) (key : List Nat)
    (hk : key.length ≤ 254) (hkey : ∀ b ∈ key, b < 256) :
    let m3 : NP_Memory := ⟨m.bytes ++ List.replicate 6 0 ++ [key.length] ++ key, m.schema⟩
    m3.bytes.length = m.bytes.length + 7 + key.length ∧
    (∀ i, i < m.bytes.length → read_byte m3 i = read_byte m i) ∧
    (∀ i, m.bytes.length ≤ i → i < m.bytes.length + 6 → read_byte m3 i = 0) ∧
    read_byte m3 (m.bytes.length + 6) = key.length ∧
    (∀ k, k < key.length → read_byte m3 (m.bytes.length + 7 + k) = key.getD k 0) := by
  intro m3
  have hXlen : (m.bytes ++ List.replicate 6 0 ++ [key.length]).length =
      m.bytes.length + 7 := by simp
  have hYlen : (m.bytes ++ List.replicate 6 0).length = m.bytes.length + 6 := by simp
  refine ⟨by simp [m3]; omega, ?_, ?_, ?_, ?_⟩
  · intro i hi
    rw [read_byte_mk_append_lt _ _ _ m.schema i (by simp; omega)]
    rw [read_byte_mk_append_lt _ _ _ m.schema i (by simp; omega)]
    rw [read_byte_mk_append_lt _ _ _ m.schema i (by omega)]
  · intro i h1 h2
    rw [read_byte_mk_append_lt _ _ _ m.schema i (by simp; omega)]
    rw [read_byte_mk_append_lt _ _ _ m.schema i (by simp; omega)]
    rw [read_byte_mk_append_right _ _ _ i (by omega)]
    have hlt6 : i - m.bytes.length < 6 := by omega
    rw [List.getD_eq_getElem?_getD, List.getElem?_replicate]
    simp [hlt6]
  · rw [read_byte_mk_append_lt _ _ _ m.schema _ (by simp)]
    rw [read_byte_mk_append_right _ _ _ _ (by omega)]
    have : m.bytes.length + 6 - (m.bytes.length + 6) = 0 := by omega
    rw [hYlen, this]
    simp [List.getD_cons_zero]
    omega
  · intro k hkk
    rw [read_byte_mk_append_right _ _ _ _ (by omega)]
    rw [hXlen]
    have : m.bytes.length + 7 + k - (m.bytes.length + 7) = k := by omega
    rw [this]
    have hmem : key.getD k 0 ∈ key := by
      rw [List.getD_eq_getElem?_getD, List.getElem?_eq_getElem hkk]
      exact List.getElem_mem hkk
    have := hkey _ hmem
    omega

/-- Frame of `insertResultMem`: the schema is untouched, seven plus
key-length bytes are appended, and among pre-existing bytes only the map
cell's two bytes at `a` can change. -/
theorem insertResultMem_frame (m : NP_Memory) (a : Nat) (key : List Nat) :
    (insertResultMem m a key).schema = m.schema ∧
    (insertResultMem m a key).bytes.length = m.bytes.length + 7 + key.length ∧
    (∀ i, i < m.bytes.length → i ≠ a → i ≠ a + 1 →
        read_byte (insertResultMem m a key) i = read_byte m i) := by
  unfold insertResultMem
  dsimp only
  set L := m.bytes.length with hL
  set m3 : NP_Memory := ⟨m.bytes ++ List.replicate 6 0 ++ [key.length] ++ key, m.schema⟩
    with hm3
  have hm3len : m3.bytes.length = L + 7 + key.length := by simp [hm3, hL]; omega
  have hm3schema : m3.schema = m.schema := rfl
  have hm3lt : ∀ i, i < L → read_byte m3 i = read_byte m i := by
    intro i hi
    rw [read_byte_mk_append_lt _ _ _ m.schema i (by simp [hL]; omega)]
    rw [read_byte_mk_append_lt _ _ _ m.schema i (by simp [hL]; omega)]
    rw [read_byte_mk_append_lt _ _ _ m.schema i (by omega)]
  constructor
  · split <;> simp [schema_write_u16, hm3schema]
  constructor
  · split <;> (simp [length_write_u16, hm3len]; omega)
  · intro i hi hne1 hne2
    have hr : read_byte (write_u16 (write_u16 m3 (L + 4) (L + 6)) a L) i
        = read_byte m i := by
      rw [read_byte_write_u16_ne _ _ _ _ hne1 hne2]
      rw [read_byte_write_u16_ne _ _ _ _ (by omega) (by omega)]
      exact hm3lt i hi
    split
    · rw [read_byte_write_u16_ne _ _ _ _ (by omega) (by omega)]
      exact hr
    · exact hr

/-- Reads of `insertResultMem` at the fresh cell, key record and the map
cell, under in-bounds and size hypotheses. -/
theorem insertResultMem_reads (m : NP_Memory) (a : Nat) (key : List Nat)
    (ha : a + 2 ≤ m.bytes.length) (hk : key.length ≤ 254)
    (hsz : m.bytes.length + 7 + key.length ≤ 65535)
    (hkey : ∀ b ∈ key, b < 256) :
    read_u16 (insertResultMem m a key) a = m.bytes.length ∧
    read_u16 (insertResultMem m a key) m.bytes.length = 0 ∧
    read_u16 (insertResultMem m a key) (m.bytes.length + 2) = read_u16 m a ∧
    read_u16 (insertResultMem m a key) (m.bytes.length + 4) = m.bytes.length + 6 ∧
    read_byte (insertResultMem m a key) (m.bytes.length + 6) = key.length ∧
    read_slice (insertResultMem m a key) (m.bytes.length + 7) key.length = key := by
  obtain ⟨h3len, h3lt, h3zero, h3klen, h3key⟩ := insert_m3_facts m key hk hkey
  unfold insertResultMem
  dsimp only
  set L := m.bytes.length with hL
  set m3 : NP_Memory := ⟨m.bytes ++ List.replicate 6 0 ++ [key.length] ++ key, m.schema⟩
    with hm3
  set m4 := write_u16 m3 (L + 4) (L + 6) with hm4
  have hm4len : m4.bytes.length = L + 7 + key.length := by
    rw [hm4, length_write_u16, h3len]
  have hm4a : read_u16 m4 a = read_u16 m a := by
    rw [hm4, read_u16_write_u16_ne _ _ _ _ (by omega) (by omega) (by omega) (by omega)]
    exact read_u16_congr _ _ _ (h3lt a (by omega)) (h3lt (a + 1) (by omega))
  set m5 := write_u16 m4 a L with hm5
  have hm5len : m5.bytes.length = L + 7 + key.length := by
    rw [hm5, length_write_u16, hm4len]
  have hm5a : read_u16 m5 a = L := by
    rw [hm5]
    exact read_u16_write_u16_self m4 a L (by omega) (by omega)
  -- reads of m5 away from {a, a+1} fall through to m4
  have hm5ne : ∀ i, i ≠ a → i ≠ a + 1 → read_byte m5 i = read_byte m4 i := by
    intro i h1 h2
    rw [hm5, read_byte_write_u16_ne _ _ _ _ h1 h2]
  have hm4ne : ∀ i, i ≠ L + 4 → i ≠ L + 5 → read_byte m4 i = read_byte m3 i := by
    intro i h1 h2
    rw [hm4, read_byte_write_u16_ne _ _ _ _ h1 (by omega)]
  have hm5cell : read_u16 m5 L = 0 := by
    have e0 : read_byte m5 L = 0 := by
      rw [hm5ne _ (by omega) (by omega), hm4ne _ (by omega) (by omega)]
      exact h3zero L (by omega) (by omega)
    have e1 : read_byte m5 (L + 1) = 0 := by
      rw [hm5ne _ (by omega) (by omega), hm4ne _ (by omega) (by omega)]
      exact h3zero (L + 1) (by omega) (by omega)
    simp [read_u16, e0, e1]
  have hm5next : read_u16 m5 (L + 2) = 0 := by
    have e0 : read_byte m5 (L + 2) = 0 := by
      rw [hm5ne _ (by omega) (by omega), hm4ne _ (by omega) (by omega)]
      exact h3zero (L + 2) (by omega) (by omega)
    have e1 : read_byte m5 (L + 3) = 0 := by
      rw [hm5ne _ (by omega) (by omega), hm4ne _ (by omega) (by omega)]
      exact h3zero (L + 3) (by omega) (by omega)
    simp [read_u16, e0, e1]
  have hm5key : read_u16 m5 (L + 4) = L + 6 := by
    have : read_u16 m4 (L + 4) = L + 6 := by
      rw [hm4]
      exact read_u16_write_u16_self m3 (L + 4) (L + 6) (by omega) (by omega)
    rw [hm5, read_u16_write_u16_ne _ _ _ _ (by omega) (by omega) (by omega) (by omega)]
    exact this
  have hm5klen : read_byte m5 (L + 6) = key.length := by
    rw [hm5ne _ (by omega) (by omega), hm4ne _ (by omega) (by omega)]
    exact h3klen
  have hm5kb : ∀ k, k < key.length → read_byte m5 (L + 7 + k) = key.getD k 0 := by
    intro k hkk
    rw [hm5ne _ (by omega) (by omega), hm4ne _ (by omega) (by omega)]
    exact h3key k hkk
  by_cases hhead : read_u16 m4 a ≠ 0
  · rw [if_pos hhead]
    have hne6 : ∀ i, i ≠ L + 2 → i ≠ L + 3 →
        read_byte (write_u16 m5 (L + 2) (read_u16 m4 a)) i = read_byte m5 i := by
      intro i h1 h2
      rw [read_byte_write_u16_ne _ _ _ _ h1 (by omega)]
    refine ⟨?_, ?_, ?_, ?_, ?_, ?_⟩
    · rw [read_u16_congr _ _ _ (hne6 a (by omega) (by omega))
        (hne6 (a + 1) (by omega) (by omega))]
      exact hm5a
    · rw [read_u16_congr _ _ _ (hne6 L (by omega) (by omega))
        (hne6 (L + 1) (by omega) (by omega))]
      exact hm5cell
    · rw [hm4a] at hhead ⊢
      exact read_u16_write_u16_self m5 (L + 2) (read_u16 m a) (by omega)
        (read_u16_lt_65536 m a)
    · rw [read_u16_congr _ _ _ (hne6 (L + 4) (by omega) (by omega))
        (hne6 (L + 5) (by omega) (by omega))]
      exact hm5key
    · rw [hne6 _ (by omega) (by omega)]
      exact hm5klen
    · simp only [read_slice]
      have : ∀ k ∈ List.range key.length,
          read_byte (write_u16 m5 (L + 2) (read_u16 m4 a)) (L + 7 + k) = key.getD k 0 := by
        intro k hkk
        simp only [List.mem_range] at hkk
        rw [hne6 _ (by omega) (by omega)]
        exact hm5kb k hkk
      rw [List.map_congr_left this]
      exact map_range_getD key
  · rw [if_neg hhead]
    push_neg at hhead
    rw [hm4a] at hhead
    refine ⟨hm5a, hm5cell, ?_, hm5key, hm5klen, ?_⟩
    · rw [hm5next, hhead]
    · simp only [read_slice]
      have : ∀ k ∈ List.range key.length,
          read_byte m5 (L + 7 + k) = key.getD k 0 := by
        intro k hkk
        simp only [List.mem_range] at hkk
        exact hm5kb k hkk
      rw [List.map_congr_left this]
      exact map_range_getD key



/-! ## Insert preserves the map invariant; claim C10 -/

theorem schema_at_congr (m m' : NP_Memory) (i : Nat) (h : m'.schema = m.schema) :
    schema_at m' i = schema_at m i := by
  simp [schema_at, h]

/-- The main insert lemma: on an invariant-satisfying map, a successful
`NP_Map::insert` prepends a fresh entry (cell at the old buffer end, key
record right after it, no value) to the represented chain, re-establishing
the invariant; among pre-existing bytes only the map cell changes. -/
theorem insert_spec (m : NP_Memory) (c : NP_Cursor) (key : List Nat)
    (locs : List MapLoc) (srt : Bool) (vof : Nat)
    (hsch : schema_at m c.schema_addr = NP_Parsed_Schema.map srt vof)
    (hinv : MapInv m c locs)
    (hk : key.length ≤ 254)
    (hkey : ∀ b ∈ key, b < 256)
    (hsz : m.bytes.length + 7 + key.length ≤ 65535) :
    NP_Map.insert c m key =
      (.ok (NP_Cursor.new m.bytes.length vof c.schema_addr),
        insertResultMem m c.buff_addr key) ∧
    MapInv (insertResultMem m c.buff_addr key) c
      (⟨m.bytes.length, m.bytes.length + 6, key, 0⟩ :: locs) ∧
    read_u16 (insertResultMem m c.buff_addr key) c.buff_addr = m.bytes.length ∧
    read_u16 (insertResultMem m c.buff_addr key) (m.bytes.length + 2) =
      read_u16 m c.buff_addr ∧
    (insertResultMem m c.buff_addr key).schema = m.schema ∧
    (insertResultMem m c.buff_addr key).bytes.length =
      m.bytes.length + 7 + key.length ∧
    (∀ i, i < m.bytes.length → i ≠ c.buff_addr → i ≠ c.buff_addr + 1 →
        read_byte (insertResultMem m c.buff_addr key) i = read_byte m i) := by
  obtain ⟨hsc, hlen, hframe⟩ := insertResultMem_frame m c.buff_addr key
  obtain ⟨hA, hC, hN, hK, hKl, hKb⟩ :=
    insertResultMem_reads m c.buff_addr key hinv.cellBound hk hsz hkey
  set L := m.bytes.length with hLdef
  set mm := insertResultMem m c.buff_addr key with hmm
  have hpres : ∀ loc ∈ locs, ∀ i, locTouch i loc → read_byte mm i = read_byte m i := by
    intro loc hl i hti
    have hOK := chain_mem_locOK m _ locs hinv.rep loc hl
    have hlt := locTouch_lt m loc hOK i hti
    obtain ⟨hd1, hd2⟩ := hinv.headDisj loc hl
    exact hframe i hlt (fun he => hd1 (he ▸ hti)) (fun he => hd2 (he ▸ hti))
  have hLpos : 2 ≤ L := by have := hinv.cellBound; omega
  have newLocOK : LocOK mm ⟨L, L + 6, key, 0⟩ := by
    refine ⟨by simp; omega, by simp; omega, by simpa using hK, by simp; omega,
      by simpa using hKl, hk, ?_, by simpa using hC, by simp, by simp; omega⟩
    show read_slice mm (L + 6 + 1) key.length = key
    have he : L + 6 + 1 = L + 7 := by omega
    rw [he]
    exact hKb
  have hlocsLt : ∀ loc ∈ locs, ∀ i, locTouch i loc → i < L := by
    intro loc hl i hti
    exact locTouch_lt m loc (chain_mem_locOK m _ locs hinv.rep loc hl) i hti
  have hnewTouch : ∀ i, locTouch i ⟨L, L + 6, key, 0⟩ → L ≤ i := by
    intro i hti
    rcases hti with h1 | h2 | h3
    · simp at h1; omega
    · simp at h2; omega
    · simp at h3
  refine ⟨insert_eq_of_size m c key srt vof hsch hk hsz, ?_, hA, hN, hsc, hlen, hframe⟩
  refine ⟨?_, ?_, ?_, ?_, ?_⟩
  · exact ⟨srt, vof, by rw [schema_at_congr m mm _ hsc]; exact hsch⟩
  · have := hinv.cellBound; omega
  · rw [hA]
    refine ⟨rfl, newLocOK, ?_⟩
    show chain mm (read_u16 mm (L + 2)) locs
    rw [hN]
    exact chain_preserve m mm _ locs hinv.rep (by omega) hpres
  · intro loc hl
    rcases List.mem_cons.mp hl with rfl | hl
    · constructor
      · intro hti
        have := hnewTouch _ hti
        have := hinv.cellBound
        omega
      · intro hti
        have := hnewTouch _ hti
        have := hinv.cellBound
        omega
    · exact hinv.headDisj loc hl
  · refine List.Pairwise.cons ?_ hinv.pdisj
    intro loc hl i hti1 hti2
    have h1 := hnewTouch i hti1
    have h2 := hlocsLt loc hl i hti2
    omega

/-! ## Claim C10 — frame effect of a successful insert -/

/-- Claim C10: a successful map insert changes, among the bytes that
existed before the call, only the map's own cell (the two bytes holding its
head address); everything else it writes (the fresh item cell, the key
length byte and the key bytes) lands in newly allocated space at the end of
the buffer, growing it by exactly 7 + key-length bytes; the returned
cursor addresses the fresh cell at the old buffer end; the schema is
untouched. -/
theorem c10_insert_frame_effect (m : NP_Memory) (c : NP_Cursor) (key : List Nat)
    (r : NP_Cursor) (h : (NP_Map.insert c m key).1 = RResult.ok r) :
    (∀ i, i < m.bytes.length → i ≠ c.buff_addr → i ≠ c.buff_addr + 1 →
        read_byte (NP_Map.insert c m key).2 i = read_byte m i) ∧
    (NP_Map.insert c m key).2.bytes.length = m.bytes.length + 7 + key.length ∧
    (NP_Map.insert c m key).2.schema = m.schema ∧
    r.buff_addr = m.bytes.length := by
  cases hs : schema_at m c.schema_addr with
  | map srt vof =>
    by_cases hk : 255 ≤ key.length
    · exfalso
      simp only [NP_Map.insert, hs] at h
      rw [if_pos hk] at h
      simp at h
    · by_cases hsz : m.bytes.length + 7 + key.length ≤ 65535
      · rw [insert_eq_of_size m c key srt vof hs (by omega) hsz] at h ⊢
        obtain ⟨hsc, hlen, hframe⟩ := insertResultMem_frame m c.buff_addr key
        simp only [RResult.ok.injEq] at h
        refine ⟨hframe, hlen, hsc, ?_⟩
        rw [← h]
        rfl
      · exfalso
        have := insert_overflow m c key srt vof hs (by omega) hsz
        rw [this] at h
        simp at h
  | none => exfalso; simp only [NP_Map.insert, hs] at h; simp at h
  | any s => exfalso; simp only [NP_Map.insert, hs] at h; simp at h
  | uint8 s d => exfalso; simp only [NP_Map.insert, hs] at h; simp at h
  | int32 s d => exfalso; simp only [NP_Map.insert, hs] at h; simp at h
  | list s o => exfalso; simp only [NP_Map.insert, hs] at h; simp at h
  | tuple s v => exfalso; simp only [NP_Map.insert, hs] at h; simp at h

/-- Claim C10, witness: inserting key `[65]` into the empty map buffer
succeeds with the new cell at offset 3, grows the buffer by 8 bytes and
leaves the sentinel byte at offset 0 untouched. -/
theorem c10_insert_frame_effect_witness :
    (NP_Map.insert rootC empty_map_mem [65]).1 = RResult.ok (NP_Cursor.new 3 1 0) ∧
    read_byte (NP_Map.insert rootC empty_map_mem [65]).2 0 = read_byte empty_map_mem 0 ∧
    (NP_Map.insert rootC empty_map_mem [65]).2.bytes.length = 3 + 7 + 1 ∧
    (NP_Cursor.new 3 1 0).buff_addr = empty_map_mem.bytes.length :=
  ⟨by decide,
   (c10_insert_frame_effect empty_map_mem rootC [65] (NP_Cursor.new 3 1 0)
      (by decide)).1 0 (by decide) (by decide) (by decide),
   (c10_insert_frame_effect empty_map_mem rootC [65] (NP_Cursor.new 3 1 0)
      (by decide)).2.1,
   (c10_insert_frame_effect empty_map_mem rootC [65] (NP_Cursor.new 3 1 0)
      (by decide)).2.2.2⟩



/-! ## Iteration of the chain; claims C2 and C3 -/

/-- Characterization of an iterator state: the entries it will still emit
are exactly `locs`.  Either iteration never started on an empty map, or it
is about to emit the head, or it sits on a current item whose next pointer
heads the remaining chain. -/
def stateChain (ms : NP_Memory) (st : NP_Map_State) (locs : List MapLoc) : Prop :=
  (st.head = Option.none ∧ locs = []) ∨
  (∃ loc0 rest, locs = loc0 :: rest ∧
    st.head = some ⟨loc0.key, loc0.cell⟩ ∧ st.current = Option.none ∧
    chain ms loc0.cell locs) ∨
  (∃ hd cur, st.head = some hd ∧ st.current = some cur ∧
    chain ms (read_u16 ms (cur.buff_addr + 2)) locs)

theorem step_iter_nil (ms : NP_Memory) (st : NP_Map_State)
    (h : stateChain ms st []) : NP_Map.step_iter st ms = Option.none := by
  rcases h with ⟨hh, _⟩ | ⟨loc0, rest, hcons, _⟩ | ⟨hd, cur, hh, hc, hch⟩
  · simp [NP_Map.step_iter, hh]
  · cases hcons
  · simp only [chain] at hch
    simp [NP_Map.step_iter, hh, hc, hch]

theorem step_iter_cons (ms : NP_Memory) (st : NP_Map_State) (loc : MapLoc)
    (rest : List MapLoc) (h : stateChain ms st (loc :: rest)) :
    ∃ st', NP_Map.step_iter st ms =
        some ((loc.key, NP_Cursor.new loc.cell st.value_of st.map.schema_addr), st') ∧
      stateChain ms st' rest ∧ st'.value_of = st.value_of ∧ st'.map = st.map := by
  rcases h with ⟨_, hnil⟩ | ⟨loc0, rest0, hcons, hh, hc, hch⟩ | ⟨hd, cur, hh, hc, hch⟩
  · cases hnil
  · injection hcons with e1 e2
    subst e1
    subst e2
    refine ⟨{ st with current := some ⟨loc.key, loc.cell⟩ }, ?_, ?_, rfl, rfl⟩
    · simp [NP_Map.step_iter, hh, hc]
    · right; right
      refine ⟨⟨loc.key, loc.cell⟩, ⟨loc.key, loc.cell⟩, by simp [hh], by simp, ?_⟩
      exact hch.2.2
  · have ha : read_u16 ms (cur.buff_addr + 2) = loc.cell := hch.1
    have hOK : LocOK ms loc := hch.2.1
    refine ⟨{ st with previous := st.current, current := some ⟨loc.key, loc.cell⟩ },
      ?_, ?_, rfl, rfl⟩
    · simp only [NP_Map.step_iter, hh, hc, ha]
      rw [if_neg hOK.cell_ne]
      rw [get_key_eq ms loc hOK]
    · right; right
      refine ⟨hd, ⟨loc.key, loc.cell⟩, by simp [hh], by simp, ?_⟩
      exact hch.2.2

theorem iterList_eq (ms : NP_Memory) (locs : List MapLoc) (st : NP_Map_State)
    (h : stateChain ms st locs) (fuel : Nat) (hf : locs.length ≤ fuel) :
    NP_Map.iterList ms st fuel =
      locs.map (fun loc =>
        (loc.key, NP_Cursor.new loc.cell st.value_of st.map.schema_addr)) := by
  induction locs generalizing st fuel with
  | nil =>
    cases fuel with
    | zero => rfl
    | succ f => simp [NP_Map.iterList, step_iter_nil ms st h]
  | cons loc rest ih =>
    cases fuel with
    | zero => simp at hf
    | succ f =>
      obtain ⟨st', hstep, hsc, hvo, hmap⟩ := step_iter_cons ms st loc rest h
      simp only [NP_Map.iterList, hstep, List.map_cons]
      rw [ih st' hsc f (by simp at hf; omega)]
      rw [hvo, hmap]

theorem selectLoop_eq (ms : NP_Memory) (key : List Nat) (mc : NP_Cursor)
    (locs : List MapLoc) (st : NP_Map_State)
    (h : stateChain ms st locs) (fuel : Nat) (hf : locs.length + 1 ≤ fuel) :
    NP_Map.selectLoop ms key mc st fuel =
      (match locs.find? (fun l => l.key == key) with
       | some loc => (.ok (NP_Cursor.new loc.cell st.value_of st.map.schema_addr), ms)
       | Option.none => NP_Map.insert mc ms key) := by
  induction locs generalizing st fuel with
  | nil =>
    cases fuel with
    | zero => simp at hf
    | succ f => simp [NP_Map.selectLoop, step_iter_nil ms st h, List.find?_nil]
  | cons loc rest ih =>
    cases fuel with
    | zero => simp at hf
    | succ f =>
      obtain ⟨st', hstep, hsc, hvo, hmap⟩ := step_iter_cons ms st loc rest h
      simp only [NP_Map.selectLoop, hstep]
      by_cases hkeq : loc.key = key
      · rw [if_pos hkeq]
        simp [List.find?_cons, hkeq]
      · rw [if_neg hkeq]
        rw [ih st' hsc f (by simp at hf; omega)]
        have hb : (loc.key == key) = false := by
          simp [hkeq]
        simp only [List.find?_cons, hb]
        rw [hvo, hmap]

theorem new_iter_ok (m : NP_Memory) (c : NP_Cursor) (locs : List MapLoc)
    (srt : Bool) (vof : Nat)
    (hsch : schema_at m c.schema_addr = NP_Parsed_Schema.map srt vof)
    (hinv : MapInv m c locs) :
    ∃ it, NP_Map.new_iter c m = .ok it ∧ stateChain m it locs ∧
      it.value_of = vof ∧ it.map = c := by
  cases locs with
  | nil =>
    have h0 : read_u16 m c.buff_addr = 0 := hinv.rep
    exact ⟨⟨Option.none, Option.none, Option.none, c, vof⟩,
      by simp [NP_Map.new_iter, hsch, h0], Or.inl ⟨rfl, rfl⟩, rfl, rfl⟩
  | cons loc rest =>
    have hch := hinv.rep
    have hhead : read_u16 m c.buff_addr = loc.cell := hch.1
    have hOK : LocOK m loc := hch.2.1
    refine ⟨⟨Option.none, Option.none, some ⟨loc.key, loc.cell⟩, c, vof⟩, ?_, ?_, rfl, rfl⟩
    · simp only [NP_Map.new_iter, hsch]
      rw [if_neg (by rw [hhead]; exact hOK.cell_ne), hhead, get_key_eq m loc hOK]
    · right; left
      refine ⟨loc, rest, rfl, rfl, rfl, ?_⟩
      rw [← hhead]
      exact hinv.rep

/-- Claim C2: on an invariant-satisfying map, `NP_Map::select` with
`schema_only` returns the virtual cursor (buffer address 0) over the map's
value schema without touching memory; otherwise it walks the chain from
the head and returns the first item whose key bytes equal the requested
key, untouched memory included; and when no item matches it returns
exactly the result of `NP_Map::insert`. -/
theorem c2_map_select (fuel : Nat) (m : NP_Memory) (c : NP_Cursor)
    (key : List Nat) (locs : List MapLoc) (srt : Bool) (vof : Nat)
    (hsch : schema_at m c.schema_addr = NP_Parsed_Schema.map srt vof)
    (hinv : MapInv m c locs)
    (hf : locs.length + 1 ≤ fuel) :
    NP_Map.select fuel c key true m =
      (.ok (NP_Cursor.new 0 vof c.schema_addr), m) ∧
    (∀ loc, locs.find? (fun l => l.key == key) = some loc →
        NP_Map.select fuel c key false m =
          (.ok (NP_Cursor.new loc.cell vof c.schema_addr), m)) ∧
    (locs.find? (fun l => l.key == key) = Option.none →
        NP_Map.select fuel c key false m = NP_Map.insert c m key) := by
  obtain ⟨it, hit, hsc, hvo, hmap⟩ := new_iter_ok m c locs srt vof hsch hinv
  have hloop := selectLoop_eq m key c locs it hsc fuel hf
  refine ⟨by simp [NP_Map.select, hsch], ?_, ?_⟩
  · intro loc hfind
    simp only [NP_Map.select, hsch, Bool.false_eq_true, if_false, hit]
    rw [hloop, hfind, hvo, hmap]
  · intro hfind
    simp only [NP_Map.select, hsch, Bool.false_eq_true, if_false, hit]
    rw [hloop, hfind]

/-- The invariant holds for the canonical empty map buffer. -/
theorem mapInv_empty : MapInv empty_map_mem rootC [] := by
  refine ⟨⟨false, 1, rfl⟩, by decide, ?_, by simp, List.Pairwise.nil⟩
  show read_u16 empty_map_mem rootC.buff_addr = 0
  decide

/-- Claim C2, witness: after inserting key `[65]` into the empty map
buffer, schema-only select returns the virtual cursor, select for `[65]`
returns the inserted item's cursor with memory untouched, and select for
the absent key `[66]` equals insert. -/
theorem c2_map_select_witness :
    NP_Map.select 2 rootC [65] true (insertResultMem empty_map_mem rootC.buff_addr [65]) =
      (.ok (NP_Cursor.new 0 1 0), insertResultMem empty_map_mem rootC.buff_addr [65]) ∧
    NP_Map.select 2 rootC [65] false (insertResultMem empty_map_mem rootC.buff_addr [65]) =
      (.ok (NP_Cursor.new 3 1 0), insertResultMem empty_map_mem rootC.buff_addr [65]) ∧
    NP_Map.select 2 rootC [66] false (insertResultMem empty_map_mem rootC.buff_addr [65]) =
      NP_Map.insert rootC (insertResultMem empty_map_mem rootC.buff_addr [65]) [66] := by
  have hspec := insert_spec empty_map_mem rootC [65] [] false 1 rfl mapInv_empty
    (by decide) (by decide) (by decide)
  have hinv : MapInv (insertResultMem empty_map_mem rootC.buff_addr [65]) rootC [⟨3, 9, [65], 0⟩] :=
    hspec.2.1
  have hsch : schema_at (insertResultMem empty_map_mem rootC.buff_addr [65]) rootC.schema_addr =
      NP_Parsed_Schema.map false 1 := by
    rw [schema_at_congr _ _ _ hspec.2.2.2.2.1]
    rfl
  refine ⟨(c2_map_select 2 _ rootC [65] _ false 1 hsch hinv (by simp)).1,
    (c2_map_select 2 _ rootC [65] _ false 1 hsch hinv (by simp)).2.1 ⟨3, 9, [65], 0⟩
      (by decide),
    (c2_map_select 2 _ rootC [66] _ false 1 hsch hinv (by simp)).2.2 (by decide)⟩

/-- Claim C3: starting from the empty map buffer, inserting `k1` and then
`k2` (distinct keys) prepends at the head: the second item's next address
is the first item's cell, the header's head address is the second item's
cell, and iteration emits `(k2, item2)` first and `(k1, item1)` second —
newest first, reverse insertion order. -/
theorem c3_insert_prepend_order (k1 k2 : List Nat) (hne : k1 ≠ k2)
    (h1 : k1.length ≤ 254) (h2 : k2.length ≤ 254)
    (hb1 : ∀ b ∈ k1, b < 256) (hb2 : ∀ b ∈ k2, b < 256) :
    ∃ c1 m1 c2 m2 it2,
      NP_Map.insert rootC empty_map_mem k1 = (.ok c1, m1) ∧
      NP_Map.insert rootC m1 k2 = (.ok c2, m2) ∧
      NP_Map.new_iter rootC m2 = .ok it2 ∧
      NP_Map.iterList m2 it2 2 = [(k2, c2), (k1, c1)] ∧
      read_u16 m2 (c2.buff_addr + 2) = c1.buff_addr ∧
      read_u16 m2 rootC.buff_addr = c2.buff_addr := by
  have hsz1 : empty_map_mem.bytes.length + 7 + k1.length ≤ 65535 := by
    show 3 + 7 + k1.length ≤ 65535
    omega
  have hspec1 := insert_spec empty_map_mem rootC k1 [] false 1 rfl mapInv_empty
    h1 hb1 hsz1
  set m1 := insertResultMem empty_map_mem rootC.buff_addr k1 with hm1
  have hlen1 : m1.bytes.length = 3 + 7 + k1.length := hspec1.2.2.2.2.2.1
  have hsch1 : schema_at m1 rootC.schema_addr = NP_Parsed_Schema.map false 1 := by
    rw [schema_at_congr _ _ _ hspec1.2.2.2.2.1]
    rfl
  have hsz2 : m1.bytes.length + 7 + k2.length ≤ 65535 := by omega
  have hspec2 := insert_spec m1 rootC k2 _ false 1 hsch1 hspec1.2.1 h2 hb2 hsz2
  set m2 := insertResultMem m1 rootC.buff_addr k2 with hm2
  obtain ⟨it2, hit2, hsc2, hvo2, hmap2⟩ :=
    new_iter_ok m2 rootC _ false 1 (by rw [schema_at_congr _ _ _ hspec2.2.2.2.2.1]; exact hsch1)
      hspec2.2.1
  refine ⟨NP_Cursor.new empty_map_mem.bytes.length 1 rootC.schema_addr, m1,
    NP_Cursor.new m1.bytes.length 1 rootC.schema_addr, m2, it2,
    hspec1.1, hspec2.1, hit2, ?_, ?_, ?_⟩
  · have hiter := iterList_eq m2
      [⟨m1.bytes.length, m1.bytes.length + 6, k2, 0⟩,
       ⟨empty_map_mem.bytes.length, empty_map_mem.bytes.length + 6, k1, 0⟩]
      it2 hsc2 2 (by simp)
    rw [hiter, hvo2, hmap2]
    simp [NP_Cursor.new]
  · simp only [NP_Cursor.new]
    rw [hspec2.2.2.2.1]
    exact hspec1.2.2.1
  · simp only [NP_Cursor.new]
    exact hspec2.2.2.1

/-- Claim C3, witness at keys `[65]` and `[66]`. -/
theorem c3_insert_prepend_order_witness :
    ∃ c1 m1 c2 m2 it2,
      NP_Map.insert rootC empty_map_mem [65] = (.ok c1, m1) ∧
      NP_Map.insert rootC m1 [66] = (.ok c2, m2) ∧
      NP_Map.new_iter rootC m2 = .ok it2 ∧
      NP_Map.iterList m2 it2 2 = [([66], c2), ([65], c1)] ∧
      read_u16 m2 (c2.buff_addr + 2) = c1.buff_addr ∧
      read_u16 m2 rootC.buff_addr = c2.buff_addr :=
  c3_insert_prepend_order [65] [66] (by decide) (by decide) (by decide)
    (by decide) (by decide)



/-! ## Claim C4 — JSON-schema to byte-schema round trip -/

theorem getD_append_add (pre l : List Nat) (k : Nat) :
    (pre ++ l).getD (pre.length + k) 0 = l.getD k 0 := by
  rw [List.getD_eq_getElem?_getD, List.getElem?_append_right (by omega)]
  simp [List.getD_eq_getElem?_getD]

/-- `from_json` only appends to the schema accumulator. -/
theorem from_json_extends :
    ∀ (fuel : Nat) (j : NP_JSON) (acc : List NP_Parsed_Schema) (s : Bool)
      (b : List Nat) (acc' : List NP_Parsed_Schema),
      NP_Schema.from_json fuel acc j = .ok (s, b, acc') →
      ∃ ext, acc' = acc ++ ext := by
  intro fuel
  induction fuel with
  | zero => intro j acc s b acc' h; simp [NP_Schema.from_json] at h
  | succ n ih =>
    intro j acc s b acc' h
    simp only [NP_Schema.from_json] at h
    split at h
    · split at h
      · simp only [uint8_from_json_to_schema] at h
        split at h <;>
          (simp only [RResult.ok.injEq, Prod.mk.injEq] at h; exact ⟨_, h.2.2.symm⟩)
      · split at h
        · split at h
          · simp at h
          · cases hrec : NP_Schema.from_json n
                (acc ++ [NP_Parsed_Schema.map false (acc.length + 1)]) (j.index "value") with
            | ok r =>
              obtain ⟨s1, cb, acc2⟩ := r
              rw [hrec] at h
              simp only [RResult.ok.injEq, Prod.mk.injEq] at h
              obtain ⟨ext, he⟩ := ih _ _ _ _ _ hrec
              refine ⟨[NP_Parsed_Schema.map false (acc.length + 1)] ++ ext, ?_⟩
              rw [← h.2.2, he, List.append_assoc]
            | err e => rw [hrec] at h; simp at h
            | panics => rw [hrec] at h; simp at h
            | outOfFuel => rw [hrec] at h; simp at h
            | undefinedBehavior => rw [hrec] at h; simp at h
        · simp at h
    · simp at h

/-- Round trip: the byte schema emitted by `from_json` parses back (at any
position in a longer byte stream) to the very same parsed-schema vector
and sortable flag. -/
theorem from_json_from_bytes_agree :
    ∀ (fuel : Nat) (j : NP_JSON) (acc : List NP_Parsed_Schema) (s : Bool)
      (b : List Nat) (acc' : List NP_Parsed_Schema),
      NP_Schema.from_json fuel acc j = .ok (s, b, acc') →
      ∀ pre : List Nat,
        NP_Schema.from_bytes fuel acc pre.length (pre ++ b) = .ok (s, acc') := by
  intro fuel
  induction fuel with
  | zero => intro j acc s b acc' h; simp [NP_Schema.from_json] at h
  | succ n ih =>
    intro j acc s b acc' h pre
    simp only [NP_Schema.from_json] at h
    split at h
    · split at h
      · -- uint8
        simp only [uint8_from_json_to_schema] at h
        split at h <;> simp only [RResult.ok.injEq, Prod.mk.injEq] at h <;>
          obtain ⟨hs, hb, hacc⟩ := h
        · subst hs; subst hacc
          rw [← hb]
          simp only [NP_Schema.from_bytes]
          rw [show pre.length = pre.length + 0 from rfl, getD_append_add]
          simp only [List.getD_cons_zero, NP_TypeKeys.toNat]
          rw [show np_typeKeys_from_u8 8 = RResult.ok NP_TypeKeys.uint8 from rfl]
          simp only [uint8_from_bytes_to_schema]
          rw [show pre.length + 0 + 1 = pre.length + 1 from rfl, getD_append_add]
          rw [show pre.length + 2 = pre.length + 2 from rfl, getD_append_add]
          simp
        · subst hs; subst hacc
          rw [← hb]
          simp only [NP_Schema.from_bytes]
          rw [show pre.length = pre.length + 0 from rfl, getD_append_add]
          simp only [List.getD_cons_zero, NP_TypeKeys.toNat]
          rw [show np_typeKeys_from_u8 8 = RResult.ok NP_TypeKeys.uint8 from rfl]
          simp only [uint8_from_bytes_to_schema]
          rw [show pre.length + 0 + 1 = pre.length + 1 from rfl, getD_append_add]
          simp
      · split at h
        · split at h
          · simp at h
          · cases hrec : NP_Schema.from_json n
                (acc ++ [NP_Parsed_Schema.map false (acc.length + 1)]) (j.index "value") with
            | ok r =>
              obtain ⟨s1, cb, acc2⟩ := r
              rw [hrec] at h
              simp only [RResult.ok.injEq, Prod.mk.injEq] at h
              obtain ⟨hs, hb, hacc⟩ := h
              subst hs; subst hacc
              rw [← hb]
              simp only [NP_Schema.from_bytes]
              rw [show pre.length = pre.length + 0 from rfl, getD_append_add]
              simp only [List.getD_cons_zero]
              rw [show np_typeKeys_from_u8 NP_TypeKeys.map.toNat =
                RResult.ok NP_TypeKeys.map from rfl]
              dsimp only
              have hsplit : pre ++ NP_TypeKeys.map.toNat :: cb =
                  (pre ++ [NP_TypeKeys.map.toNat]) ++ cb := by
                simp
              have hlen2 : pre.length + 0 + 1 = (pre ++ [NP_TypeKeys.map.toNat]).length := by
                simp
              rw [hsplit, hlen2, ih _ _ _ _ _ hrec (pre ++ [NP_TypeKeys.map.toNat])]
            | err e => rw [hrec] at h; simp at h
            | panics => rw [hrec] at h; simp at h
            | outOfFuel => rw [hrec] at h; simp at h
            | undefinedBehavior => rw [hrec] at h; simp at h
        · simp at h
    · simp at h

/-- Claim C4: for every JSON schema accepted by `from_json`, parsing the
emitted byte schema with `from_bytes` yields a structurally equal parsed
schema vector (and the same sortable flag); in particular a map schema
yields a `Map` node at the current position whose value sub-schema sits at
the next position with `sortable = false`. -/
theorem c4_schema_roundtrip (fuel : Nat) (j : NP_JSON)
    (acc : List NP_Parsed_Schema) (s : Bool) (b : List Nat)
    (acc' : List NP_Parsed_Schema)
    (h : NP_Schema.from_json fuel acc j = .ok (s, b, acc')) :
    NP_Schema.from_bytes fuel acc 0 b = .ok (s, acc') ∧
    (j.index "type" = NP_JSON.jstring "map" →
      s = false ∧
      ∃ rest, acc' = acc ++ [NP_Parsed_Schema.map false (acc.length + 1)] ++ rest) := by
  constructor
  · have := from_json_from_bytes_agree fuel j acc s b acc' h []
    simpa using this
  · intro htype
    cases fuel with
    | zero => simp [NP_Schema.from_json] at h
    | succ n =>
      simp only [NP_Schema.from_json, htype] at h
      rw [if_neg (by decide : ¬("map" = "uint8"))] at h
      rw [if_pos trivial] at h
      split at h
      · simp at h
      · cases hrec : NP_Schema.from_json n
            (acc ++ [NP_Parsed_Schema.map false (acc.length + 1)]) (j.index "value") with
        | ok r =>
          obtain ⟨s1, cb, acc2⟩ := r
          rw [hrec] at h
          simp only [RResult.ok.injEq, Prod.mk.injEq] at h
          obtain ⟨ext, he⟩ := from_json_extends n _ _ _ _ _ hrec
          exact ⟨h.1.symm, ext, by rw [← h.2.2, he, List.append_assoc]⟩
        | err e => rw [hrec] at h; simp at h
        | panics => rw [hrec] at h; simp at h
        | outOfFuel => rw [hrec] at h; simp at h
        | undefinedBehavior => rw [hrec] at h; simp at h

/-- The JSON schema `{"type":"map","value":{"type":"uint8"}}`. -/
def c4json : NP_JSON :=
  .dictionary [("type", .jstring "map"),
               ("value", .dictionary [("type", .jstring "uint8")])]

/-- Claim C4, witness: the map-of-uint8 schema round trips from JSON
through bytes to the same parsed vector. -/
theorem c4_schema_roundtrip_witness :
    NP_Schema.from_json 2 [] c4json =
      .ok (false, [22, 8, 0],
        [NP_Parsed_Schema.map false 1, NP_Parsed_Schema.uint8 true Option.none]) ∧
    NP_Schema.from_bytes 2 [] 0 [22, 8, 0] =
      .ok (false,
        [NP_Parsed_Schema.map false 1, NP_Parsed_Schema.uint8 true Option.none]) :=
  ⟨by decide,
   (c4_schema_roundtrip 2 c4json [] false [22, 8, 0]
      [NP_Parsed_Schema.map false 1, NP_Parsed_Schema.uint8 true Option.none]
      (by decide)).1⟩



/-! ## Claim C1 — compaction preserves the JSON document -/

/-- Logical content of one map entry: its key and its (uint8) value, if
set. -/
def absEntry (m : NP_Memory) (loc : MapLoc) : List Nat × Option Nat :=
  (loc.key, if loc.vaddr = 0 then Option.none else some (read_byte m loc.vaddr))

/-- JSON rendering of one map entry, as emitted by `NP_Map::to_json`. -/
def jsonEntry (m : NP_Memory) (loc : MapLoc) : List Nat × NP_Buf_JSON :=
  (loc.key,
   if loc.vaddr = 0 then NP_Buf_JSON.null else NP_Buf_JSON.jnumber (read_byte m loc.vaddr))

/-- Rendering of an abstract entry. -/
def renderEntry (e : List Nat × Option Nat) : List Nat × NP_Buf_JSON :=
  (e.1, match e.2 with
        | Option.none => NP_Buf_JSON.null
        | some b => NP_Buf_JSON.jnumber b)

theorem jsonEntry_eq_render (m : NP_Memory) (loc : MapLoc) :
    jsonEntry m loc = renderEntry (absEntry m loc) := by
  simp only [jsonEntry, renderEntry, absEntry]
  split <;> simp

theorem absEntry_pres (m m' : NP_Memory) (loc : MapLoc)
    (h : loc.vaddr ≠ 0 → read_byte m' loc.vaddr = read_byte m loc.vaddr) :
    absEntry m' loc = absEntry m loc := by
  simp only [absEntry]
  by_cases hv : loc.vaddr = 0
  · simp [hv]
  · simp [hv, h hv]

/-- Equality of JSON documents up to object-entry order: objects compare as
multisets of entries, everything else compares as equality. -/
def docEquiv : NP_Buf_JSON → NP_Buf_JSON → Prop
  | NP_Buf_JSON.dictionary xs, NP_Buf_JSON.dictionary ys =>
      (xs : Multiset (List Nat × NP_Buf_JSON)) = (ys : Multiset (List Nat × NP_Buf_JSON))
  | x, y => x = y

/-- Allocation cost of compacting one map entry into a destination buffer:
the 6-byte cell, the key record, and (at most) a one-byte uint8 payload. -/
def locCost (loc : MapLoc) : Nat := 8 + loc.key.length

/-- `json_encode` on an invariant-satisfying map over a `uint8` value
schema: `Null` when empty, otherwise the object of the chain's entries in
iteration order. -/
theorem json_encode_map_spec (fuel : Nat) (m : NP_Memory) (c : NP_Cursor)
    (locs : List MapLoc) (srt : Bool) (vof : Nat) (us : Bool) (ud : Option Nat)
    (hsch : schema_at m c.schema_addr = NP_Parsed_Schema.map srt vof)
    (hval : schema_at m vof = NP_Parsed_Schema.uint8 us ud)
    (hinv : MapInv m c locs)
    (hf : locs.length + 2 ≤ fuel) :
    NP_Cursor.json_encode fuel c m =
      (match locs with
       | [] => NP_Buf_JSON.null
       | _ => NP_Buf_JSON.dictionary (locs.map (fun loc => jsonEntry m loc))) := by
  obtain ⟨f, rfl⟩ : ∃ f, fuel = f + 2 := ⟨fuel - 2, by omega⟩
  cases locs with
  | nil =>
    have h0 : read_u16 m c.buff_addr = 0 := hinv.rep
    simp [NP_Cursor.json_encode, h0]
  | cons loc rest =>
    have hch := hinv.rep
    have hhead : read_u16 m c.buff_addr = loc.cell := hch.1
    have hne : loc.cell ≠ 0 := hch.2.1.cell_ne
    obtain ⟨it, hit, hsc, hvo, hmap⟩ := new_iter_ok m c (loc :: rest) srt vof hsch hinv
    have hiter := iterList_eq m (loc :: rest) it hsc (f + 1) (by simp at hf ⊢; omega)
    simp only [NP_Cursor.json_encode]
    rw [if_neg (by rw [hhead]; exact hne), hsch]
    simp only [NP_Map.to_json]
    rw [if_neg (by rw [hhead]; exact hne), hit]
    dsimp only
    rw [hiter, List.map_map]
    refine congrArg NP_Buf_JSON.dictionary (List.map_congr_left ?_)
    intro l hl
    have hOK : LocOK m l := chain_mem_locOK m _ _ hinv.rep l hl
    have hlen1 : 1 ≤ f := by simp at hf; omega
    obtain ⟨g, rfl⟩ : ∃ g, f = g + 1 := ⟨f - 1, by omega⟩
    simp only [Function.comp, jsonEntry, hvo, hmap]
    simp only [NP_Cursor.json_encode, NP_Cursor.new]
    rw [show read_u16 m l.cell = l.vaddr from hOK.vaddr_eq]
    by_cases hv : l.vaddr = 0
    · simp [hv]
    · rw [if_neg hv, if_neg hv]
      simp [schema_at] at hval ⊢
      rw [hval]

/-- Setting a fresh uint8 value through the newest map entry's cell:
allocates the payload byte at the buffer end and points the entry's value
address at it, preserving the invariant, every other entry and the map
cell. -/
theorem set_value_head (m : NP_Memory) (c cur : NP_Cursor) (loc : MapLoc)
    (rest : List MapLoc) (v : Nat)
    (hinv : MapInv m c (loc :: rest))
    (hv0 : loc.vaddr = 0)
    (hcur : cur.buff_addr = loc.cell)
    (hv : v < 256)
    (hsz : m.bytes.length + 1 ≤ 65535) :
    scalar_set_value cur m [v] =
      (.ok cur, write_u16 ⟨m.bytes ++ [v % 256], m.schema⟩ loc.cell m.bytes.length) ∧
    MapInv (write_u16 ⟨m.bytes ++ [v % 256], m.schema⟩ loc.cell m.bytes.length) c
      ({ loc with vaddr := m.bytes.length } :: rest) ∧
    (write_u16 ⟨m.bytes ++ [v % 256], m.schema⟩ loc.cell m.bytes.length).schema =
      m.schema ∧
    (write_u16 ⟨m.bytes ++ [v % 256], m.schema⟩ loc.cell m.bytes.length).bytes.length =
      m.bytes.length + 1 ∧
    read_byte (write_u16 ⟨m.bytes ++ [v % 256], m.schema⟩ loc.cell m.bytes.length)
      m.bytes.length = v ∧
    (∀ i, i < m.bytes.length → i ≠ loc.cell → i ≠ loc.cell + 1 →
        read_byte (write_u16 ⟨m.bytes ++ [v % 256], m.schema⟩ loc.cell m.bytes.length) i =
          read_byte m i) := by
  have hOK : LocOK m loc := hinv.rep.2.1
  have hhead : read_u16 m c.buff_addr = loc.cell := hinv.rep.1
  have hchainRest : chain m (read_u16 m (loc.cell + 2)) rest := hinv.rep.2.2
  obtain ⟨hpHead, hpRest⟩ := List.pairwise_cons.mp hinv.pdisj
  have hrestOK : ∀ l ∈ rest, LocOK m l := chain_mem_locOK m _ rest hchainRest
  set L := m.bytes.length with hL
  set m1 : NP_Memory := ⟨m.bytes ++ [v % 256], m.schema⟩ with hm1
  set m' := write_u16 m1 loc.cell L with hm'
  have hm1len : m1.bytes.length = L + 1 := by simp [hm1]
  have hm1lt : ∀ i, i < L → read_byte m1 i = read_byte m i := by
    intro i hi
    exact read_byte_mk_append_lt _ _ _ m.schema i hi
  have hm1L : read_byte m1 L = v := by
    rw [hm1, read_byte_mk_append_right _ _ _ L (by omega)]
    simp
    omega
  have hmlen : m'.bytes.length = L + 1 := by rw [hm', length_write_u16, hm1len]
  have hmsch : m'.schema = m.schema := rfl
  have hcell6 : loc.cell + 6 ≤ L := hOK.cell_le
  have hframe : ∀ i, i < L → i ≠ loc.cell → i ≠ loc.cell + 1 →
      read_byte m' i = read_byte m i := by
    intro i hi h1 h2
    rw [hm', read_byte_write_u16_ne _ _ _ _ h1 h2]
    exact hm1lt i hi
  have hreadL : read_byte m' L = v := by
    rw [hm', read_byte_write_u16_ne _ _ _ _ (by omega) (by omega)]
    exact hm1L
  have hvaddr : read_u16 m' loc.cell = L := by
    rw [hm']
    exact read_u16_write_u16_self m1 loc.cell L (by omega) (by omega)
  have heq : scalar_set_value cur m [v] = (.ok cur, m') := by
    simp only [scalar_set_value]
    rw [hcur, hOK.vaddr_eq, hv0]
    simp only [ne_eq, not_true_eq_false, if_false, ite_false]
    simp only [List.map_cons, List.map_nil, malloc_borrow, List.length_cons,
      List.length_nil]
    rw [if_neg (by omega)]
  -- positions inside the key record are distinct from the cell's first two bytes
  have hkeyne : ∀ i, loc.keyAddr ≤ i → i < loc.keyAddr + 1 + loc.key.length →
      i ≠ loc.cell ∧ i ≠ loc.cell + 1 := by
    intro i hi1 hi2
    constructor
    · rintro rfl
      exact hOK.cell_key_disj loc.cell (by omega) (by omega) ⟨hi1, hi2⟩
    · rintro rfl
      exact hOK.cell_key_disj (loc.cell + 1) (by omega) (by omega) ⟨hi1, hi2⟩
  have hprevLoc : ∀ i, locTouch i loc → i < L := locTouch_lt m loc hOK
  have hrestPres : ∀ l ∈ rest, ∀ i, locTouch i l → read_byte m' i = read_byte m i := by
    intro l hl i hti
    have hlt : i < L := locTouch_lt m l (hrestOK l hl) i hti
    have hne1 : i ≠ loc.cell := by
      rintro rfl
      exact hpHead l hl loc.cell (Or.inl ⟨by omega, by omega⟩) hti
    have hne2 : i ≠ loc.cell + 1 := by
      rintro rfl
      exact hpHead l hl (loc.cell + 1) (Or.inl ⟨by omega, by omega⟩) hti
    exact hframe i hlt hne1 hne2
  have haneq : c.buff_addr ≠ loc.cell ∧ c.buff_addr + 1 ≠ loc.cell ∧
      c.buff_addr ≠ loc.cell + 1 ∧ c.buff_addr + 1 ≠ loc.cell + 1 := by
    obtain ⟨hd1, hd2⟩ := hinv.headDisj loc (List.mem_cons_self _ _)
    refine ⟨?_, ?_, ?_, ?_⟩ <;> intro he
    · exact hd1 (Or.inl ⟨by omega, by omega⟩)
    · exact hd2 (Or.inl ⟨by omega, by omega⟩)
    · exact hd1 (Or.inl ⟨by omega, by omega⟩)
    · exact hd2 (Or.inl ⟨by omega, by omega⟩)
  have hcellB := hinv.cellBound
  have hheadPres : read_u16 m' c.buff_addr = loc.cell := by
    rw [read_u16_congr m m' c.buff_addr
      (hframe _ (by omega) haneq.1 haneq.2.2.1)
      (hframe _ (by omega) haneq.2.1 haneq.2.2.2)]
    exact hhead
  have hcellPres : ∀ k, 2 ≤ k → k < 6 →
      read_byte m' (loc.cell + k) = read_byte m (loc.cell + k) := by
    intro k h2 h6
    exact hframe _ (by omega) (by omega) (by omega)
  have hLOK' : LocOK m' { loc with vaddr := L } := by
    constructor
    · show loc.cell ≠ 0
      exact hOK.cell_ne
    · show loc.cell + 6 ≤ m'.bytes.length
      omega
    · show read_u16 m' (loc.cell + 4) = loc.keyAddr
      rw [read_u16_congr m m' _ (hcellPres 4 (by omega) (by omega))
        (by have := hcellPres 5 (by omega) (by omega); simpa [Nat.add_assoc] using this)]
      exact hOK.keyAddr_eq
    · show loc.keyAddr + 1 + loc.key.length ≤ m'.bytes.length
      have := hOK.key_le
      omega
    · show read_byte m' loc.keyAddr = loc.key.length
      have h2 := hkeyne loc.keyAddr (by omega) (by omega)
      rw [hframe _ (by have := hOK.key_le; omega) h2.1 h2.2]
      exact hOK.keyLen_eq
    · show loc.key.length ≤ 254
      exact hOK.key_small
    · show read_slice m' (loc.keyAddr + 1) loc.key.length = loc.key
      have hsl : read_slice m' (loc.keyAddr + 1) loc.key.length =
          read_slice m (loc.keyAddr + 1) loc.key.length := by
        simp only [read_slice]
        refine List.map_congr_left ?_
        intro k hk
        simp only [List.mem_range] at hk
        have h2 := hkeyne (loc.keyAddr + 1 + k) (by omega) (by omega)
        exact hframe _ (by have := hOK.key_le; omega) h2.1 h2.2
      rw [hsl, hOK.key_eq]
    · show read_u16 m' loc.cell = L
      exact hvaddr
    · intro h
      show L < m'.bytes.length
      omega
    · show ∀ i, loc.cell ≤ i → i < loc.cell + 6 →
          ¬(loc.keyAddr ≤ i ∧ i < loc.keyAddr + 1 + loc.key.length)
      exact hOK.cell_key_disj
  have htouch' : ∀ i, locTouch i { loc with vaddr := L } → locTouch i loc ∨ i = L := by
    intro i ht
    rcases ht with h1 | h2 | h3
    · exact Or.inl (Or.inl h1)
    · exact Or.inl (Or.inr (Or.inl h2))
    · exact Or.inr h3.2
  refine ⟨heq, ?_, hmsch, hmlen, hreadL, hframe⟩
  refine ⟨?_, by omega, ?_, ?_, ?_⟩
  · obtain ⟨s1, v1, he⟩ := hinv.isMap
    exact ⟨s1, v1, by rw [schema_at_congr m m' _ hmsch]; exact he⟩
  · rw [hheadPres]
    refine ⟨rfl, hLOK', ?_⟩
    show chain m' (read_u16 m' (loc.cell + 2)) rest
    have hn : read_u16 m' (loc.cell + 2) = read_u16 m (loc.cell + 2) := by
      refine read_u16_congr m m' _ (hcellPres 2 (by omega) (by omega)) ?_
      have := hcellPres 3 (by omega) (by omega)
      simpa [Nat.add_assoc] using this
    rw [hn]
    exact chain_preserve m m' _ rest hchainRest (by omega) hrestPres
  · intro l hl
    rcases List.mem_cons.mp hl with rfl | hl
    · obtain ⟨hd1, hd2⟩ := hinv.headDisj loc (List.mem_cons_self _ _)
      constructor
      · intro ht
        rcases htouch' _ ht with ht | he
        · exact hd1 ht
        · omega
      · intro ht
        rcases htouch' _ ht with ht | he
        · exact hd2 ht
        · omega
    · exact hinv.headDisj l (List.mem_cons_of_mem _ hl)
  · refine List.Pairwise.cons ?_ hpRest
    intro l hl i hti1 hti2
    rcases htouch' _ hti1 with ht | he
    · exact hpHead l hl i ht hti2
    · have := locTouch_lt m l (hrestOK l hl) i hti2
      omega



theorem read_slice_one (m : NP_Memory) (i : Nat) : read_slice m i 1 = [read_byte m i] := by
  have h : List.range 1 = [0] := rfl
  simp [read_slice, h]

/-- The `for_each` loop of `NP_Map::do_compact`, over a `uint8` value
schema: every source entry is inserted into the destination (freshest
first) and its payload byte, when present, is copied; the destination
invariant is maintained and the logical content of the copied entries is
exactly the source's, in reverse insertion order. -/
theorem compactLoop_spec (srcLocs : List MapLoc) :
    ∀ (fuel : Nat) (st : NP_Map_State) (ms : NP_Memory)
      (svof : Nat) (us : Bool) (ud : Option Nat)
      (md : NP_Memory) (cd : NP_Cursor) (dLocs : List MapLoc)
      (dsrt : Bool) (dvof : Nat),
      stateChain ms st srcLocs →
      (∀ loc ∈ srcLocs, LocOK ms loc) →
      st.value_of = svof →
      schema_at ms svof = NP_Parsed_Schema.uint8 us ud →
      schema_at md cd.schema_addr = NP_Parsed_Schema.map dsrt dvof →
      MapInv md cd dLocs →
      md.bytes.length + (srcLocs.map locCost).sum ≤ 65535 →
      srcLocs.length + 2 ≤ fuel →
      ∃ (md' : NP_Memory) (dNew : List MapLoc),
        NP_Map.compactLoop fuel st ms cd md = (.ok cd, md') ∧
        MapInv md' cd (dNew ++ dLocs) ∧
        md'.schema = md.schema ∧
        dNew.map (absEntry md') = (srcLocs.map (absEntry ms)).reverse ∧
        (∀ l ∈ dLocs, absEntry md' l = absEntry md l) := by
  induction srcLocs with
  | nil =>
    intro fuel st ms svof us ud md cd dLocs dsrt dvof hsc hOKs hvo hval hdsch hdinv hsum hf
    obtain ⟨f, rfl⟩ : ∃ f, fuel = f + 1 := ⟨fuel - 1, by omega⟩
    refine ⟨md, [], ?_, by simpa using hdinv, rfl, by simp, fun l _ => rfl⟩
    simp [NP_Map.compactLoop, step_iter_nil ms st hsc]
  | cons loc rest ih =>
    intro fuel st ms svof us ud md cd dLocs dsrt dvof hsc hOKs hvo hval hdsch hdinv hsum hf
    obtain ⟨f, rfl⟩ : ∃ f, fuel = f + 1 := ⟨fuel - 1, by omega⟩
    obtain ⟨g, rfl⟩ : ∃ g, f = g + 1 := ⟨f - 1, by simp at hf; omega⟩
    obtain ⟨st', hstep, hscRest, hvoEq, hmapEq⟩ := step_iter_cons ms st loc rest hsc
    have hOK : LocOK ms loc := hOKs loc (List.mem_cons_self _ _)
    have hOKrest : ∀ l ∈ rest, LocOK ms l := fun l hl => hOKs l (List.mem_cons_of_mem _ hl)
    have hk : loc.key.length ≤ 254 := hOK.key_small
    have hkb := key_bytes_lt ms loc hOK
    have hsumCons : md.bytes.length + (8 + loc.key.length) + (rest.map locCost).sum ≤ 65535 := by
      simp only [List.map_cons, List.sum_cons, locCost] at hsum
      omega
    have hsz1 : md.bytes.length + 7 + loc.key.length ≤ 65535 := by omega
    obtain ⟨hins, hinv1, hA1, hN1, hsc1, hlen1, hframe1⟩ :=
      insert_spec md cd loc.key dLocs dsrt dvof hdsch hdinv hk hkb hsz1
    set L := md.bytes.length with hL
    set md1 := insertResultMem md cd.buff_addr loc.key with hmd1
    set newLoc : MapLoc := ⟨L, L + 6, loc.key, 0⟩ with hnewLoc
    have hbuff : (NP_Cursor.new loc.cell st.value_of st.map.schema_addr).buff_addr =
        loc.cell := rfl
    have hdsch1 : schema_at md1 cd.schema_addr = NP_Parsed_Schema.map dsrt dvof := by
      rw [schema_at_congr md md1 _ hsc1]
      exact hdsch
    have hfg : rest.length + 2 ≤ g + 1 := by simp at hf; omega
    -- preservation of pre-existing destination entries across the insert
    have hpresIns : ∀ l ∈ dLocs, absEntry md1 l = absEntry md l := by
      intro l hl
      apply absEntry_pres
      intro hlv
      have hOKd : LocOK md l := chain_mem_locOK md _ dLocs hdinv.rep l hl
      have hlt : l.vaddr < L := hOKd.vaddr_lt hlv
      obtain ⟨hd1, hd2⟩ := hdinv.headDisj l hl
      refine hframe1 l.vaddr hlt ?_ ?_
      · intro he
        exact hd1 (Or.inr (Or.inr ⟨hlv, he.symm⟩))
      · intro he
        exact hd2 (Or.inr (Or.inr ⟨hlv, he.symm⟩))
    by_cases hv0 : loc.vaddr = 0
    · -- the source entry has no value: compact is a no-op on the fresh item
      have hcomp : NP_Cursor.compact (g + 1)
          (NP_Cursor.new loc.cell st.value_of st.map.schema_addr) ms
          (NP_Cursor.new L dvof cd.schema_addr) md1 =
          (.ok (NP_Cursor.new L dvof cd.schema_addr), md1) := by
        simp only [NP_Cursor.compact, hbuff]
        rw [hOK.vaddr_eq, if_pos hv0]
      obtain ⟨md', dNewRest, hloop, hinvOut, hschOut, habs, hpresOut⟩ :=
        ih (g + 1) st' ms svof us ud md1 cd (newLoc :: dLocs) dsrt dvof
          hscRest hOKrest (by rw [hvoEq]; exact hvo) hval hdsch1 hinv1
          (by rw [hlen1]; omega) hfg
      have hNlAbs : absEntry md' newLoc = absEntry ms loc := by
        rw [hpresOut newLoc (List.mem_cons_self _ _)]
        have e1 : newLoc.vaddr = 0 := rfl
        have e2 : newLoc.key = loc.key := rfl
        simp [absEntry, e1, e2, hv0]
      refine ⟨md', dNewRest ++ [newLoc], ?_, ?_, ?_, ?_, ?_⟩
      · have heval : NP_Map.compactLoop (g + 1 + 1) st ms cd md =
            NP_Map.compactLoop (g + 1) st' ms cd md1 := by
          simp only [NP_Map.compactLoop, hstep, hins, hcomp]
        rw [heval]
        exact hloop
      · rw [List.append_assoc]
        exact hinvOut
      · rw [hschOut]
        exact hsc1
      · simp only [List.map_append, List.map_cons, List.map_nil, List.reverse_cons,
          habs, hNlAbs]
      · intro l hl
        rw [hpresOut l (List.mem_cons_of_mem _ hl)]
        exact hpresIns l hl
    · -- the source entry carries a payload byte: it is copied across
      have hb := read_byte_lt_256 ms loc.vaddr
      have hsz2 : md1.bytes.length + 1 ≤ 65535 := by rw [hlen1]; omega
      obtain ⟨hsetEq, hinv2, hsch2, hlen2, hreadL2, hframe2⟩ :=
        set_value_head md1 cd (NP_Cursor.new L dvof cd.schema_addr) newLoc dLocs
          (read_byte ms loc.vaddr) hinv1 rfl rfl hb hsz2
      set md2 := write_u16 ⟨md1.bytes ++ [read_byte ms loc.vaddr % 256], md1.schema⟩
        newLoc.cell md1.bytes.length with hmd2
      set newLoc2 : MapLoc := { newLoc with vaddr := md1.bytes.length } with hnewLoc2
      have hcomp : NP_Cursor.compact (g + 1)
          (NP_Cursor.new loc.cell st.value_of st.map.schema_addr) ms
          (NP_Cursor.new L dvof cd.schema_addr) md1 =
          (.ok (NP_Cursor.new L dvof cd.schema_addr), md2) := by
        simp only [NP_Cursor.compact, NP_Cursor.new]
        rw [hOK.vaddr_eq, if_neg hv0]
        rw [hvo, hval]
        dsimp only
        simp only [scalar_do_compact, scalar_into_value, NP_Cursor.new]
        rw [hOK.vaddr_eq, if_neg hv0]
        dsimp only
        rw [read_slice_one]
        exact hsetEq
      have hdsch2 : schema_at md2 cd.schema_addr = NP_Parsed_Schema.map dsrt dvof := by
        rw [schema_at_congr md1 md2 _ hsch2]
        exact hdsch1
      obtain ⟨md', dNewRest, hloop, hinvOut, hschOut, habs, hpresOut⟩ :=
        ih (g + 1) st' ms svof us ud md2 cd (newLoc2 :: dLocs) dsrt dvof
          hscRest hOKrest (by rw [hvoEq]; exact hvo) hval hdsch2 hinv2
          (by rw [hlen2, hlen1]; omega) hfg
      have hvne : newLoc2.vaddr ≠ 0 := by
        have e1 : newLoc2.vaddr = md1.bytes.length := rfl
        rw [e1, hlen1]
        omega
      have hNlAbs : absEntry md' newLoc2 = absEntry ms loc := by
        rw [hpresOut newLoc2 (List.mem_cons_self _ _)]
        have e1 : newLoc2.vaddr = md1.bytes.length := rfl
        have e2 : newLoc2.key = loc.key := rfl
        simp only [absEntry, e1, e2]
        rw [if_neg (by rw [hlen1]; omega : ¬(md1.bytes.length = 0)), if_neg hv0, hreadL2]
      refine ⟨md', dNewRest ++ [newLoc2], ?_, ?_, ?_, ?_, ?_⟩
      · have heval : NP_Map.compactLoop (g + 1 + 1) st ms cd md =
            NP_Map.compactLoop (g + 1) st' ms cd md2 := by
          simp only [NP_Map.compactLoop, hstep, hins, hcomp]
        rw [heval]
        exact hloop
      · rw [List.append_assoc]
        exact hinvOut
      · rw [hschOut, hsch2]
        exact hsc1
      · simp only [List.map_append, List.map_cons, List.map_nil, List.reverse_cons,
          habs, hNlAbs]
      · intro l hl
        rw [hpresOut l (List.mem_cons_of_mem _ hl)]
        have hpresSet : absEntry md2 l = absEntry md1 l := by
          apply absEntry_pres
          intro hlv
          have hOKd : LocOK md l := chain_mem_locOK md _ dLocs hdinv.rep l hl
          have hlt : l.vaddr < L := hOKd.vaddr_lt hlv
          have e3 : newLoc.cell = L := rfl
          refine hframe2 l.vaddr (by rw [hlen1]; omega) ?_ ?_ <;> rw [e3] <;> omega
        rw [hpresSet]
        exact hpresIns l hl



/-- Claim C1: for a map-of-uint8 schema, compacting an
invariant-satisfying source buffer into a fresh (empty-map) destination
buffer succeeds, and JSON-encoding the compacted buffer yields the same
JSON document as JSON-encoding the source directly — object entries
compared as a multiset, since `do_compact` re-inserts the entries and
thereby reverses the iteration order. -/
theorem c1_compact_preserves_json (fuel : Nat) (ms : NP_Memory) (cs : NP_Cursor)
    (srcLocs : List MapLoc) (ssrt : Bool) (svof : Nat) (us : Bool) (ud : Option Nat)
    (md : NP_Memory) (cd : NP_Cursor) (dsrt : Bool) (dvof : Nat)
    (us2 : Bool) (ud2 : Option Nat)
    (hsrc : schema_at ms cs.schema_addr = NP_Parsed_Schema.map ssrt svof)
    (hsval : schema_at ms svof = NP_Parsed_Schema.uint8 us ud)
    (hsinv : MapInv ms cs srcLocs)
    (hdst : schema_at md cd.schema_addr = NP_Parsed_Schema.map dsrt dvof)
    (hdval : schema_at md dvof = NP_Parsed_Schema.uint8 us2 ud2)
    (hdinv : MapInv md cd [])
    (hsz : md.bytes.length + (srcLocs.map locCost).sum ≤ 65535)
    (hfuel : srcLocs.length + 4 ≤ fuel) :
    ∃ md', NP_Cursor.compact fuel cs ms cd md = (.ok cd, md') ∧
      docEquiv (NP_Cursor.json_encode fuel cd md') (NP_Cursor.json_encode fuel cs ms) := by
  obtain ⟨f, rfl⟩ : ∃ f, fuel = f + 1 := ⟨fuel - 1, by omega⟩
  cases srcLocs with
  | nil =>
    have h0 : read_u16 ms cs.buff_addr = 0 := hsinv.rep
    refine ⟨md, ?_, ?_⟩
    · simp only [NP_Cursor.compact]
      rw [if_pos h0]
    · have hdj : NP_Cursor.json_encode (f + 1) cd md = NP_Buf_JSON.null :=
        json_encode_map_spec (f + 1) md cd [] dsrt dvof us2 ud2 hdst hdval hdinv
          (by simp; omega)
      have hsj : NP_Cursor.json_encode (f + 1) cs ms = NP_Buf_JSON.null :=
        json_encode_map_spec (f + 1) ms cs [] ssrt svof us ud hsrc hsval hsinv
          (by simp; omega)
      rw [hdj, hsj]
      exact rfl
  | cons loc rest =>
    obtain ⟨f2, rfl⟩ : ∃ f2, f = f2 + 1 := ⟨f - 1, by simp at hfuel; omega⟩
    have hhead : read_u16 ms cs.buff_addr = loc.cell := hsinv.rep.1
    have hne0 : loc.cell ≠ 0 := hsinv.rep.2.1.cell_ne
    obtain ⟨it, hit, hsc, hvo, hmap⟩ := new_iter_ok ms cs (loc :: rest) ssrt svof hsrc hsinv
    obtain ⟨md', dNew, hloop, hinvOut, hschOut, habs, _⟩ :=
      compactLoop_spec (loc :: rest) f2 it ms svof us ud md cd [] dsrt dvof
        hsc (chain_mem_locOK ms _ _ hsinv.rep) hvo hsval hdst hdinv hsz
        (by simp at hfuel ⊢; omega)
    have hinv' : MapInv md' cd dNew := by
      rw [List.append_nil] at hinvOut
      exact hinvOut
    have hcompEq : NP_Cursor.compact (f2 + 1 + 1) cs ms cd md = (.ok cd, md') := by
      simp only [NP_Cursor.compact]
      rw [if_neg (by rw [hhead]; exact hne0), hsrc]
      dsimp only
      simp only [NP_Map.do_compact]
      rw [if_neg (by rw [hhead]; exact hne0), hit]
      dsimp only
      exact hloop
    have hlen : dNew.length = (loc :: rest).length := by
      have h := congrArg List.length habs
      simpa using h
    cases dNew with
    | nil => simp at hlen
    | cons d0 dRest =>
      refine ⟨md', hcompEq, ?_⟩
      have hdj : NP_Cursor.json_encode (f2 + 1 + 1) cd md' =
          NP_Buf_JSON.dictionary ((d0 :: dRest).map (fun l => jsonEntry md' l)) :=
        json_encode_map_spec (f2 + 1 + 1) md' cd (d0 :: dRest) dsrt dvof us2 ud2
          (by rw [schema_at_congr md md' _ hschOut]; exact hdst)
          (by rw [schema_at_congr md md' _ hschOut]; exact hdval)
          hinv' (by simp at hlen hfuel ⊢; omega)
      have hsj : NP_Cursor.json_encode (f2 + 1 + 1) cs ms =
          NP_Buf_JSON.dictionary ((loc :: rest).map (fun l => jsonEntry ms l)) :=
        json_encode_map_spec (f2 + 1 + 1) ms cs (loc :: rest) ssrt svof us ud
          hsrc hsval hsinv (by simp at hfuel ⊢; omega)
      rw [hdj, hsj]
      show ((d0 :: dRest).map (fun l => jsonEntry md' l) :
            Multiset (List Nat × NP_Buf_JSON)) =
          ((loc :: rest).map (fun l => jsonEntry ms l) :
            Multiset (List Nat × NP_Buf_JSON))
      have h1 : (d0 :: dRest).map (fun l => jsonEntry md' l) =
          ((loc :: rest).map (fun l => jsonEntry ms l)).reverse := by
        calc (d0 :: dRest).map (fun l => jsonEntry md' l)
            = (d0 :: dRest).map (fun l => renderEntry (absEntry md' l)) := by
              refine List.map_congr_left ?_
              intro l _
              exact jsonEntry_eq_render md' l
          _ = ((d0 :: dRest).map (absEntry md')).map renderEntry := by
              rw [List.map_map]
              rfl
          _ = (((loc :: rest).map (absEntry ms)).reverse).map renderEntry := by
              rw [habs]
          _ = (((loc :: rest).map (absEntry ms)).map renderEntry).reverse := by
              rw [List.map_reverse]
          _ = ((loc :: rest).map (fun l => renderEntry (absEntry ms l))).reverse := by
              rw [List.map_map]
              rfl
          _ = ((loc :: rest).map (fun l => jsonEntry ms l)).reverse := by
              refine congrArg List.reverse (List.map_congr_left ?_)
              intro l _
              exact (jsonEntry_eq_render ms l).symm
      rw [h1]
      exact Multiset.coe_reverse _

/-- Source buffer for the C1 witness: the empty map buffer after inserting
key `[65]` and setting its uint8 value to 42. -/
def c1src : NP_Memory :=
  write_u16
    ⟨(insertResultMem empty_map_mem rootC.buff_addr [65]).bytes ++ [42 % 256],
     (insertResultMem empty_map_mem rootC.buff_addr [65]).schema⟩
    3 (insertResultMem empty_map_mem rootC.buff_addr [65]).bytes.length

theorem c1_compact_preserves_json_witness :
    ∃ md', NP_Cursor.compact 5 rootC c1src rootC empty_map_mem = (.ok rootC, md') ∧
      docEquiv (NP_Cursor.json_encode 5 rootC md') (NP_Cursor.json_encode 5 rootC c1src) := by
  have hins := insert_spec empty_map_mem rootC [65] [] false 1 rfl mapInv_empty
    (by decide) (by decide) (by decide)
  have hsv := set_value_head (insertResultMem empty_map_mem rootC.buff_addr [65])
    rootC (NP_Cursor.new 3 1 0) ⟨3, 9, [65], 0⟩ [] 42 hins.2.1 rfl rfl
    (by decide) (by decide)
  exact c1_compact_preserves_json 5 c1src rootC [⟨3, 9, [65], 11⟩] false 1 true Option.none
    empty_map_mem rootC false 1 true Option.none (by decide) (by decide) hsv.2.1
    (by decide) (by decide) mapInv_empty (by decide) (by decide)


/-! ## Claim C9 — the u8-to-type-key conversion at byte 25 -/

/-- Claim C9: the guard of `impl From<u8> for NP_TypeKeys` is
`value > 25`, so the byte 25 — which matches no declared variant
(discriminants stop at 24) — is not rejected and reaches the `transmute`,
which is undefined behavior rather than a panic or a declared variant.
This theorem evaluates the conversion at the failing input 25. -/
theorem c9_from_u8_at_25 : np_typeKeys_from_u8 25 = RResult.undefinedBehavior := rfl

/-! ## Claim C5 — errors returned, not raised -/

/-- Claim C5, counterexample: the u8-to-type-key conversion (part of schema
parsing from bytes) panics at byte 26 instead of returning an error. -/
theorem c5_counterexample_from_u8_panics : np_typeKeys_from_u8 26 = RResult.panics := rfl

/-- Claim C5, amended: map insert on a map-schema cursor and schema parsing
from JSON return `Ok` or `Err` and never panic; but the byte-schema path
has no error channel — the u8-to-type-key conversion panics on every byte
of 26 or more. -/
theorem c5_amended_errors_returned :
    (∀ b : Nat, 26 ≤ b → np_typeKeys_from_u8 b = RResult.panics) ∧
    (∀ (m : NP_Memory) (c : NP_Cursor) (key : List Nat) (srt : Bool) (vof : Nat),
      schema_at m c.schema_addr = NP_Parsed_Schema.map srt vof →
      isOkOrErr (NP_Map.insert c m key).1) ∧
    (∀ (fuel : Nat) (sch : List NP_Parsed_Schema) (j : NP_JSON),
      NP_Schema.from_json fuel sch j ≠ RResult.panics ∧
      NP_Schema.from_json fuel sch j ≠ RResult.undefinedBehavior) := by
  refine ⟨?_, ?_, ?_⟩
  · intro b hb
    simp only [np_typeKeys_from_u8]
    rw [if_pos (by omega)]
  · intro m c key srt vof hsch
    exact insert_isOkOrErr m c key srt vof hsch
  · intro fuel
    induction fuel with
    | zero => intro sch j; exact ⟨by simp [NP_Schema.from_json], by simp [NP_Schema.from_json]⟩
    | succ n ih =>
      intro sch j
      have hm := ih (sch ++ [NP_Parsed_Schema.map false (sch.length + 1)]) (j.index "value")
      constructor <;>
      · simp only [NP_Schema.from_json]
        split
        · split
          · simp only [uint8_from_json_to_schema]
            split <;> simp
          · split
            · split
              · simp
              · cases hrec : NP_Schema.from_json n
                  (sch ++ [NP_Parsed_Schema.map false (sch.length + 1)]) (j.index "value") <;>
                  simp_all
            · simp
        · simp

/-- Claim C5, amended, witness at concrete inputs. -/
theorem c5_amended_witness :
    np_typeKeys_from_u8 30 = RResult.panics ∧
    isOkOrErr (NP_Map.insert rootC empty_map_mem [65]).1 ∧
    NP_Schema.from_json 1 [] (NP_JSON.jstring "x") ≠ RResult.panics :=
  ⟨c5_amended_errors_returned.1 30 (by decide),
   c5_amended_errors_returned.2.1 empty_map_mem rootC [65] false 1 rfl,
   (c5_amended_errors_returned.2.2 1 [] (NP_JSON.jstring "x")).1⟩

/-! ## Claim C6 — the key-length check of map insert -/

/-- Claim C6: on a map-schema cursor, an insert with a key of 255 bytes or
more fails with the key-length error and leaves the memory untouched (the
check precedes every allocation); a key of 254 bytes or fewer is never
rejected by this check. -/
theorem c6_insert_key_length (m : NP_Memory) (c : NP_Cursor) (key : List Nat)
    (srt : Bool) (vof : Nat)
    (hsch : schema_at m c.schema_addr = NP_Parsed_Schema.map srt vof) :
    (255 ≤ key.length → NP_Map.insert c m key = (.err errKeyTooLong, m)) ∧
    (key.length ≤ 254 → (NP_Map.insert c m key).1 ≠ RResult.err errKeyTooLong) := by
  constructor
  · intro hk
    simp only [NP_Map.insert, hsch]
    rw [if_pos hk]
  · intro hk
    exact insert_ne_keyTooLong m c key srt vof hsch hk

/-- Claim C6, witness: a 255-byte key is rejected without allocation; the
one-byte key `[65]` passes the check. -/
theorem c6_insert_key_length_witness :
    schema_at empty_map_mem rootC.schema_addr = NP_Parsed_Schema.map false 1 ∧
    NP_Map.insert rootC empty_map_mem (List.replicate 255 7) =
      (.err errKeyTooLong, empty_map_mem) ∧
    (NP_Map.insert rootC empty_map_mem [65]).1 ≠ RResult.err errKeyTooLong :=
  ⟨rfl,
   (c6_insert_key_length empty_map_mem rootC (List.replicate 255 7) false 1 rfl).1 (by simp),
   (c6_insert_key_length empty_map_mem rootC [65] false 1 rfl).2 (by simp)⟩

/-! ## Claim C7 — typecast checks of get_here and set_here -/

/-- Claim C7: whenever the value type's tag differs from the tag of the
schema node governing the cursor, `get_here` and `set_here` fail with the
typecast error; `set_here` leaves the memory untouched and `get_here`
fails for every codec (so neither reads nor writes the value). -/
theorem c7_typecast_check (sch : NP_Parsed_Schema) (T : NP_Codec) (c : NP_Cursor)
    (m : NP_Memory) (v : List Nat)
    (h : sch.into_type_data.1 ≠ T.tag) :
    NP_Cursor.get_here sch T c m = RResult.err errTypecast ∧
    NP_Cursor.set_here sch T c m v = (RResult.err errTypecast, m) := by
  constructor
  · simp only [NP_Cursor.get_here]; rw [if_pos h]
  · simp only [NP_Cursor.set_here]; rw [if_pos h]

/-- A value type with the `string` tag (tag 2) and trivial codec entry
points, for exercising the typecast check. -/
def utf8StringWitnessCodec : NP_Codec :=
  ⟨NP_TypeKeys.utf8String.toNat,
   fun _ _ => .ok Option.none,
   fun c m _ => (.ok c, m),
   fun _ => Option.none⟩

/-- Claim C7, witness: reading (or writing) a string out of an `int32`
schema fails with the typecast error. -/
theorem c7_typecast_check_witness :
    (NP_Parsed_Schema.int32 true Option.none).into_type_data.1 ≠ utf8StringWitnessCodec.tag ∧
    NP_Cursor.get_here (NP_Parsed_Schema.int32 true Option.none) utf8StringWitnessCodec
      rootC empty_map_mem = RResult.err errTypecast ∧
    NP_Cursor.set_here (NP_Parsed_Schema.int32 true Option.none) utf8StringWitnessCodec
      rootC empty_map_mem [1] = (RResult.err errTypecast, empty_map_mem) :=
  ⟨by decide,
   (c7_typecast_check (NP_Parsed_Schema.int32 true Option.none) utf8StringWitnessCodec
      rootC empty_map_mem [1] (by decide)).1,
   (c7_typecast_check (NP_Parsed_Schema.int32 true Option.none) utf8StringWitnessCodec
      rootC empty_map_mem [1] (by decide)).2⟩

/-! ## Claim C8 — integer parsing of list and tuple path segments -/

/-- Claim C8, amended: at a list (respectively tuple) schema cursor with a
non-empty remaining path, `select` and `select_with_commit` return the
not-a-number path error — never a cursor — whenever the next segment does
not parse as a 16-bit (respectively 8-bit) unsigned integer.  (A segment
that does parse can still produce an error from the deeper levels of the
selection, so parse failure is sufficient but not necessary for an
error.) -/
theorem c8_amended_path_parse_errors :
    (∀ (fuel : Nat) (c : NP_Cursor) (m : NP_Memory) (path : List String)
       (idx : Nat) (srt : Bool) (of : Nat),
      idx < path.length →
      schema_at m c.schema_addr = NP_Parsed_Schema.list srt of →
      parseUnsigned 65535 (path.getD idx "") = Option.none →
      (NP_Cursor.select (fuel + 1) c m path idx).1 = RResult.err errPathListNotNumber ∧
      (NP_Cursor.select_with_commit (fuel + 1) c m path idx).1 =
        RResult.err errPathListNotNumber) ∧
    (∀ (fuel : Nat) (c : NP_Cursor) (m : NP_Memory) (path : List String)
       (idx : Nat) (srt : Bool) (vals : List Nat),
      idx < path.length →
      schema_at m c.schema_addr = NP_Parsed_Schema.tuple srt vals →
      parseUnsigned 255 (path.getD idx "") = Option.none →
      (NP_Cursor.select (fuel + 1) c m path idx).1 = RResult.err errPathTupleNotNumber ∧
      (NP_Cursor.select_with_commit (fuel + 1) c m path idx).1 =
        RResult.err errPathTupleNotNumber) := by
  constructor
  · intro fuel c m path idx srt of hidx hsch hparse
    constructor
    · simp only [NP_Cursor.select, hsch, hparse]
      rw [if_neg (by omega)]
    · simp only [NP_Cursor.select_with_commit, hsch, hparse]
      rw [if_neg (by omega)]
  · intro fuel c m path idx srt vals hidx hsch hparse
    constructor
    · simp only [NP_Cursor.select, hsch, hparse]
      rw [if_neg (by omega)]
    · simp only [NP_Cursor.select_with_commit, hsch, hparse]
      rw [if_neg (by omega)]

/-- The list-of-list schema buffer of the C8 scenarios. -/
def c8mem : NP_Memory :=
  ⟨[0, 0, 0], [.list false 1, .list false 2, .uint8 true Option.none]⟩

/-- Root cursor of `c8mem`. -/
def c8root : NP_Cursor := NP_Cursor.new 1 0 0

/-- Claim C8, counterexample: on a list-of-lists, the path `["0", "x"]`
has a first segment that parses as a 16-bit integer, yet `select` returns
an error (raised at the nested level) — so "returns an error exactly when
the segment does not parse" fails in the only-if direction. -/
theorem c8_counterexample_parse_ok_but_error :
    parseUnsigned 65535 ((["0", "x"] : List String).getD 0 "") = some 0 ∧
    (NP_Cursor.select 4 c8root c8mem ["0", "x"] 0).1 =
      RResult.err errPathListNotNumber := by
  constructor
  · rfl
  · rfl

/-- Claim C8, amended, witness: the non-numeric segment `"x"` into a list
(and the non-numeric segment `"y"` into a tuple) fails in both `select`
and `select_with_commit`. -/
theorem c8_amended_witness :
    (NP_Cursor.select 3 c8root c8mem ["x"] 0).1 = RResult.err errPathListNotNumber ∧
    (NP_Cursor.select_with_commit 3 c8root c8mem ["x"] 0).1 =
      RResult.err errPathListNotNumber ∧
    (NP_Cursor.select 3 ⟨1, 0, 0, Option.none, Option.none⟩
      ⟨[0, 0, 0], [.tuple false [1], .uint8 true Option.none]⟩ ["y"] 0).1 =
      RResult.err errPathTupleNotNumber :=
  ⟨(c8_amended_path_parse_errors.1 2 c8root c8mem ["x"] 0 false 1 (by decide) rfl
      (by decide)).1,
   (c8_amended_path_parse_errors.1 2 c8root c8mem ["x"] 0 false 1 (by decide) rfl
      (by decide)).2,
   (c8_amended_path_parse_errors.2 2 ⟨1, 0, 0, Option.none, Option.none⟩
      ⟨[0, 0, 0], [.tuple false [1], .uint8 true Option.none]⟩ ["y"] 0 false [1]
      (by decide) rfl (by decide)).1⟩

end NoProto
